import Mathlib

/-!
Verification development for the skillshub hybrid retrieval service
(`tools/skillshub/service.py` and `tools/skillshub/build_index.py`).

Modelling conventions:
* Python `str` is modelled as `List Char` (named `Str` below), so that all
  string operations are executable and decidable.  `str.strip`, `str.lower`,
  `str.split`, `str.replace('-', ' ')` are re-implemented on `Str`.
* Python floats are modelled as `ℚ`.  The only non-rational operation in the
  sources is the square root inside L2 normalization (`np.linalg.norm`); it is
  passed around as an explicit function parameter `sqrt : ℚ → ℚ`, and theorems
  assume only the properties of it they need (for instance `sqrt 0 = 0`).
* numpy matrices are `List (List ℚ)` (rows = documents).
* External providers (the sentence-transformer model, the fitted sklearn
  vectorizer, the faiss nearest-neighbour search) are parameters: the model
  encode output, the frozen `transform` function and the per-query retrieval
  lists `ℕ → List (ℚ × ℤ)` (scores with row indices) are inputs of the
  embedded functions, exactly at the call boundary of the Python code.
* `HTTPException(status_code=c)` is modelled as `Except.error c`; a normal
  return is `Except.ok`.
-/

set_option maxHeartbeats 1600000

namespace SkillsHub

/-! ## Python string model -/

abbrev Str := List Char

/-- Shorthand turning a Lean string literal into the `List Char` model. -/
def str (s : String) : Str := s.data

/-- Whitespace test used by Python `str.strip` / `str.split`. -/
def isSpace (c : Char) : Bool := c = ' ' ∨ c = '\t' ∨ c = '\n' ∨ c = '\r'

/-- Python `str.strip()`: drop whitespace on both ends. -/
def pyStrip (s : Str) : Str :=
  ((s.dropWhile isSpace).reverse.dropWhile isSpace).reverse

/-- Python `str.lower()` (ASCII case folding suffices for this corpus model). -/
def pyLower (s : Str) : Str := s.map Char.toLower

/-- Python `str.split()` with no separator: split on whitespace runs and drop
empty tokens. -/
def pySplitWs (s : Str) : List Str := (s.splitOnP isSpace).filter (· ≠ [])

/-- Python `str.split(',')`. -/
def pySplitComma (s : Str) : List Str := s.splitOnP (· = ',')

/-- Python `str.replace('-', ' ')` (the pattern is a single character, so the
substring replace degenerates to a character map). -/
def pyDashToSpace (s : Str) : Str := s.map (fun c => if c = '-' then ' ' else c)

/-! ## Constants of `service.py` (lines 20-31) -/

def DEFAULT_HYBRID_NLP_WEIGHT : ℚ := 7/10
def DEFAULT_HYBRID_ALPHA_SHORT_QUERY : ℚ := 55/100
def DEFAULT_HYBRID_ALPHA_LONG_QUERY : ℚ := 75/100
def EXACT_MATCH_BONUS : ℚ := 15/100

/-- The field names `('name', 'description', 'excerpt')`, shared by
`service.py` and `build_index.py`. -/
def FIELD_NAMES : List Str := [str "name", str "description", str "excerpt"]

/-- `DEFAULT_FIELD_WEIGHTS` of `service.py` / `build_index.py`. -/
def defaultFieldWeight (f : Str) : ℚ :=
  if f = str "name" then 6/10
  else if f = str "description" then 3/10
  else if f = str "excerpt" then 1/10
  else 0

/-! ## Adaptive blend factor (`service.py` lines 253-264) -/

/-- `_query_length`: `len((query or '').strip().split())`. -/
def queryLength (q : Str) : ℕ := (pySplitWs (pyStrip q)).length

/-- `_select_hybrid_alpha` as a function of the token count. -/
def selectHybridAlphaOfLength (length : ℕ) : ℚ :=
  if length ≤ 2 then DEFAULT_HYBRID_ALPHA_SHORT_QUERY
  else if length ≥ 5 then DEFAULT_HYBRID_ALPHA_LONG_QUERY
  else
    let span := DEFAULT_HYBRID_ALPHA_LONG_QUERY - DEFAULT_HYBRID_ALPHA_SHORT_QUERY
    DEFAULT_HYBRID_ALPHA_SHORT_QUERY + ((length : ℚ) - 2) * (span / 3)

/-- `_select_hybrid_alpha` of `service.py`. -/
def selectHybridAlpha (q : Str) : ℚ := selectHybridAlphaOfLength (queryLength q)

/-! ## Engine resolution (`service.py` lines 308-351) -/

/-- The engine actually used by a query after resolution. -/
inductive Use where
  | sbert
  | tfidf
  | hybrid
deriving DecidableEq

/-- Engine names accepted by `search` (line 312). -/
def allowedEngine (s : Str) : Bool :=
  s = str "auto" ∨ s = str "sbert" ∨ s = str "tfidf" ∨ s = str "hybrid"

/-- Lines 335-351 of `service.py`: resolve an (already validated) requested
engine name against the availability of the model and the two indices.
`Except.error 503` models `HTTPException(status_code=503)`. -/
def resolveUse (modelLoaded sbertIdx tfidfIdx : Bool) (requested : Str) :
    Except ℕ Use :=
  if requested = str "auto" then
    if modelLoaded ∧ sbertIdx then .ok .sbert
    else if tfidfIdx then .ok .tfidf
    else .error 503
  else if requested = str "sbert" then
    if modelLoaded = false ∨ sbertIdx = false then .error 503 else .ok .sbert
  else if requested = str "tfidf" then
    if tfidfIdx = false then .error 503 else .ok .tfidf
  else
    -- only "hybrid" reaches this branch: invalid names were rejected with 400
    if modelLoaded = false ∨ sbertIdx = false ∨ tfidfIdx = false then .error 503
    else .ok .hybrid

/-! ## Hybrid score fusion (`service.py` lines 229-238 and 376-403) -/

/-- Maximum of a score list, as in Python `max(values)` on a nonempty list. -/
def listMax : List ℚ → ℚ
  | [] => 0
  | x :: xs => xs.foldl max x

/-- Minimum of a score list, as in Python `min(values)` on a nonempty list. -/
def listMin : List ℚ → ℚ
  | [] => 0
  | x :: xs => xs.foldl min x

/-- `_normalize_scores` (lines 229-238): min-max normalize a score list; when
`max = min` (degenerate or empty case) every normalized score is `0`. -/
def normalizeScores (values : List ℚ) : List ℚ :=
  match values with
  | [] => []
  | v :: vs =>
    let maxVal := listMax (v :: vs)
    let minVal := listMin (v :: vs)
    if maxVal = minVal then (v :: vs).map (fun _ => 0)
    else (v :: vs).map (fun x => (x - minVal) / (maxVal - minVal))

/-- Pointwise min-max normalization against a reference value list, in the
words of the specification: `(score - min) / (max - min)`, everything `0`
when `max = min`. -/
def minmaxNorm (values : List ℚ) (x : ℚ) : ℚ :=
  if listMax values = listMin values then 0
  else (x - listMin values) / (listMax values - listMin values)

/-- The per-document score record of the hybrid path: row index together with
its raw `sbert` and `tfidf` slots, in dict insertion order (`score_map` in the
source, a Python dict keyed by `int(idx)`). -/
abbrev ScoreMap := List (ℤ × ℚ × ℚ)

def mapKeys (m : ScoreMap) : List ℤ := m.map (·.1)

/-- Python `score_map[k] = v`: replace in place when the key exists, else
append (dicts preserve insertion order). -/
def setEntry (m : ScoreMap) (k : ℤ) (v : ℚ × ℚ) : ScoreMap :=
  if m.any (fun e => e.1 = k) then m.map (fun e => if e.1 = k then (k, v) else e)
  else m ++ [(k, v)]

/-- Python `score_map.get(k, dflt)`. -/
def getEntry (m : ScoreMap) (k : ℤ) (dflt : ℚ × ℚ) : ℚ × ℚ :=
  ((m.find? (fun e => e.1 = k)).map (·.2)).getD dflt

/-- First loop over the sbert retrieval (lines 382-385): negative indices are
skipped; each retrieved index gets `(score, 0.0)`. -/
def insertSbertResults (m : ScoreMap) (res : List (ℚ × ℤ)) : ScoreMap :=
  res.foldl (fun m p => if p.2 < 0 then m else setEntry m p.2 (p.1, 0)) m

/-- Second loop over the tfidf retrieval (lines 386-391): negative indices are
skipped; the entry (default `(0.0, 0.0)`) gets its tfidf slot set. -/
def insertTfidfResults (m : ScoreMap) (res : List (ℚ × ℤ)) : ScoreMap :=
  res.foldl
    (fun m p =>
      if p.2 < 0 then m
      else setEntry m p.2 ((getEntry m p.2 (0, 0)).1, p.1)) m

def buildScoreMap (sres tres : List (ℚ × ℤ)) : ScoreMap :=
  insertTfidfResults (insertSbertResults [] sres) tres

/-- One candidate of the hybrid `combined` list (the 6-tuple built on
line 403 of `service.py`). -/
structure HybridEntry where
  score : ℚ
  idx : ℤ
  rawSbert : ℚ
  rawTfidf : ℚ
  sNorm : ℚ
  tNorm : ℚ
  effectiveWeight : ℚ
deriving DecidableEq

/-- Lines 381-403 of `service.py`: build the score map from both retrievals,
min-max normalize each slot across it (`sbert_values` and `tfidf_values` are
read off the map in its insertion order), and blend each candidate with
`effective_weight = (weight + alpha) / 2` (the list is sorted by the caller,
line 405). -/
def hybridCombined (weight alpha : ℚ) (sres tres : List (ℚ × ℤ)) :
    List HybridEntry :=
  ((buildScoreMap sres tres).zip
      ((normalizeScores ((buildScoreMap sres tres).map (fun e => e.2.1))).zip
        (normalizeScores ((buildScoreMap sres tres).map (fun e => e.2.2))))).map
    (fun e =>
      { score := ((weight + alpha) / 2) * e.2.1
                   + (1 - (weight + alpha) / 2) * e.2.2
        idx := e.1.1
        rawSbert := e.1.2.1
        rawTfidf := e.1.2.2
        sNorm := e.2.1
        tNorm := e.2.2
        effectiveWeight := (weight + alpha) / 2 })

/-! Specification-side vocabulary for C1: the raw score a candidate received
from one engine (0 when not retrieved by it), and the union of retrieved
candidates. -/

/-- The score a row index received from a retrieval list, `0` when the index
was not retrieved. -/
def retrievedScore (res : List (ℚ × ℤ)) (i : ℤ) : ℚ :=
  match res.find? (fun p => p.2 = i) with
  | some p => p.1
  | none => 0

/-- The non-negative (valid) row indices of a retrieval list, in order. -/
def validIdxs (res : List (ℚ × ℤ)) : List ℤ :=
  (res.filter (fun p => ¬ p.2 < 0)).map (·.2)

/-- The union of candidates retrieved by either engine: the sbert candidates
first, then the tfidf candidates not already present (dict insertion order).
-/
def unionIdxs (sres tres : List (ℚ × ℤ)) : List ℤ :=
  validIdxs sres ++ (validIdxs tres).filter (fun i => i ∉ validIdxs sres)

/-! ## Field fusion (`build_index.py` lines 91-135) -/

abbrev Vec := List ℚ
abbrev Mat := List Vec

def sumSq (v : Vec) : ℚ := (v.map (fun x => x * x)).sum

/-- `_normalize_rows` (lines 91-94): divide each row by its L2 norm, with the
zero-norm guard `norms[norms == 0] = 1.0`.  The square root inside
`np.linalg.norm` is the function parameter `sqrt`. -/
def normalizeRows (sqrt : ℚ → ℚ) (m : Mat) : Mat :=
  m.map (fun row =>
    row.map (fun x => x / (if sqrt (sumSq row) = 0 then 1 else sqrt (sumSq row))))

/-- The per-document presence mask of one field (line 122): 1 when the
document's raw text for the field is non-empty after strip, else 0. -/
def maskOf (texts : List Str) : List ℚ :=
  texts.map (fun t => if pyStrip t = [] then 0 else 1)

/-- numpy `emb * c` with a column `c` of shape `(n, 1)`: scale each row by its
per-document coefficient. -/
def scaleRows (cs : List ℚ) (m : Mat) : Mat :=
  List.zipWith (fun c row => row.map (fun x => c * x)) cs m

/-- numpy elementwise matrix addition. -/
def addMat (a b : Mat) : Mat := List.zipWith (List.zipWith (· + ·)) a b

/-- The three dict arguments of `_combine_field_embeddings`:
`field_embeddings.get(field)`, `field_texts[field]`,
`field_weights.get(field, 0.0)`. -/
structure FieldData where
  embeddings : Str → Option Mat
  texts : Str → List Str
  weights : Str → ℚ

/-- One iteration of the `for field in FIELD_NAMES` loop of
`_combine_field_embeddings` (lines 115-130), accumulating
`(total, weight_sums)`; `none` models the Python `total is None` state. -/
def combineStep (data : FieldData) (acc : Option (Mat × List ℚ)) (field : Str) :
    Option (Mat × List ℚ) :=
  match data.embeddings field with
  | none => acc
  | some emb =>
    if data.weights field ≤ 0 then acc
    else
      match acc with
      | none =>
          some (scaleRows ((maskOf (data.texts field)).map
                  (fun m => data.weights field * m)) emb,
                (maskOf (data.texts field)).map (fun m => data.weights field * m))
      | some (total, wsums) =>
          some (addMat total (scaleRows ((maskOf (data.texts field)).map
                  (fun m => data.weights field * m)) emb),
                List.zipWith (· + ·) wsums
                  ((maskOf (data.texts field)).map (fun m => data.weights field * m)))

/-- `_combine_field_embeddings` (lines 112-135): fold the per-field loop,
return `None` when no field contributed, else guard the zero denominators
(`weight_sums[weight_sums == 0] = 1.0`), divide row-wise and L2-normalize. -/
def combineFieldEmbeddings (sqrt : ℚ → ℚ) (data : FieldData) : Option Mat :=
  match FIELD_NAMES.foldl (combineStep data) none with
  | none => none
  | some (total, wsums) =>
      some (normalizeRows sqrt
        (List.zipWith (fun row w => row.map (fun x => x / w)) total
          (wsums.map (fun w => if w = 0 then 1 else w))))

/-- Invariant carried through the field loop for a document `i` whose field
texts are all empty: whenever the accumulator is `some (total, weight_sums)`,
both have one entry per document, the document's `weight_sums` entry is 0 and
its `total` row is all zeros. -/
def EmptyDocAcc (n i : ℕ) (acc : Option (Mat × List ℚ)) : Prop :=
  ∀ total wsums, acc = some (total, wsums) →
    total.length = n ∧ wsums.length = n ∧ wsums[i]? = some 0
      ∧ ∀ row, total[i]? = some row → ∀ v ∈ row, v = 0

/-- A concrete stand-in for the square root in counterexample evaluations;
only its value at 0 (and positivity away from 0) matters there. -/
def zeroOneSqrt (x : ℚ) : ℚ := if x = 0 then 0 else 1

/-- A one-document corpus whose three field texts are all empty, while the
embedding provider still returned a (2-dimensional) vector per field — which
is what `model.encode` does on an empty string. -/
def c2Data : FieldData where
  embeddings := fun _ => some [[1, 2]]
  texts := fun _ => [str ""]
  weights := defaultFieldWeight

/-! ## Query-time service model (`service.py` lines 209-548) -/

/-- One metadata record as consumed by the query path: the fields `search`
reads from the sidecar dicts, each through `m.get(...)`-style coalescing. -/
structure SMeta where
  id : Str
  name : Str
  description : Str
  excerpt : Str
  tags : List Str
  owner : Str
  source : Str
  requiresInternet : Bool
deriving DecidableEq

/-- `str(m.get(f, '') or '')` for the three scored fields (line 479/495). -/
def metaField (m : SMeta) (f : Str) : Str :=
  if f = str "name" then m.name
  else if f = str "description" then m.description
  else if f = str "excerpt" then m.excerpt
  else []

/-- `_detect_exact_match` (lines 241-250): case-insensitive equality of the
stripped query and name, also after replacing hyphens by spaces. -/
def detectExactMatch (q : Str) (m : SMeta) : Bool :=
  if pyLower (pyStrip q) = [] then false
  else if pyLower (pyStrip m.name) = pyLower (pyStrip q) then true
  else pyDashToSpace (pyLower (pyStrip q)) = pyDashToSpace (pyLower (pyStrip m.name))

/-- Python `x.strip().lower() if x else None` followed by the truthiness
test `if x_norm:` on the result (lines 276-277 with 283-288). -/
def normActive : Option Str → Option Str
  | none => none
  | some s =>
    if s = [] then none
    else if pyLower (pyStrip s) = [] then none
    else some (pyLower (pyStrip s))

/-- The normalized tag set
`{t.strip().lower() for t in tags or [] if t.strip()}` (line 275). -/
def tagSetOf (tags : Option (List Str)) : List Str :=
  ((tags.getD []).filter (fun t => pyStrip t ≠ [])).map (fun t => pyLower (pyStrip t))

/-- The per-row test of `_apply_metadata_filters` (lines 278-292). -/
def rowPasses (tagSet : List Str) (ownerN sourceN : Option Str)
    (ri : Option Bool) (row : SMeta) : Bool :=
  (tagSet.isEmpty
      || tagSet.all (fun t => (row.tags.map (fun u => pyLower (pyStrip u))).contains t))
    && (match ownerN with
        | none => true
        | some o => pyLower (pyStrip row.owner) = o)
    && (match sourceN with
        | none => true
        | some s => pyLower (pyStrip row.source) = s)
    && (match ri with
        | none => true
        | some b => row.requiresInternet = b)

/-- `_apply_metadata_filters` (lines 271-293). -/
def applyMetadataFilters (rows : List SMeta) (tags : Option (List Str))
    (owner source : Option Str) (ri : Option Bool) : List SMeta :=
  if (tags = none ∨ tags = some []) ∧ (owner = none ∨ owner = some [])
      ∧ (source = none ∨ source = some []) ∧ ri = none then rows
  else
    rows.filter (rowPasses (tagSetOf tags) (normActive owner) (normActive source) ri)

/-- The clamped per-field weight of the service's `_normalize_field_weights`
(lines 209-222): the per-query override wins over the index-meta weights,
which win over the defaults; negatives are clamped to 0. -/
def fieldWeightValue (metaFW overrideW : Str → Option ℚ) (f : Str) : ℚ :=
  match overrideW f with
  | some v => if v < 0 then 0 else v
  | none =>
    match metaFW f with
    | some v => if v < 0 then 0 else v
    | none => if defaultFieldWeight f < 0 then 0 else defaultFieldWeight f

/-- `_normalize_field_weights` of `service.py` (lines 209-226): normalize to
sum 1, or fall back to the equal split `1/3` when the clamped total is 0. -/
def normalizeFieldWeightsSvc (metaFW overrideW : Str → Option ℚ) :
    List (Str × ℚ) :=
  if (FIELD_NAMES.map (fieldWeightValue metaFW overrideW)).sum ≤ 0 then
    FIELD_NAMES.map (fun f => (f, (1 : ℚ) / 3))
  else
    FIELD_NAMES.map (fun f =>
      (f, fieldWeightValue metaFW overrideW f
            / (FIELD_NAMES.map (fieldWeightValue metaFW overrideW)).sum))

def dot (a b : Vec) : ℚ := (List.zipWith (· * ·) a b).sum

/-- L2 normalization of a single (query) vector with the zero-norm guard
(lines 365-367 and 475-477). -/
def l2normalize (sqrt : ℚ → ℚ) (v : Vec) : Vec :=
  v.map (fun x => x / (if sqrt (sumSq v) = 0 then 1 else sqrt (sumSq v)))

/-- The inputs of one `search` call that come from process state and external
providers: the metadata sidecar, availability flags, the two faiss searches
(candidate count ↦ scored row indices), the encoded query, the pickled
vectorizer transform, the per-field matrices and the index-meta field
weights. -/
structure SearchEnv where
  metas : List SMeta
  modelLoaded : Bool
  sbertIndexLoaded : Bool
  tfidfIndexLoaded : Bool
  sbertSearch : ℕ → List (ℚ × ℤ)
  tfidfSearch : ℕ → List (ℚ × ℤ)
  sbertQueryEmb : Vec
  vtrans : Option (Str → Vec)
  sqrt : ℚ → ℚ
  sbertFieldEmb : Option (Str → Option Mat)
  tfidfFieldEmb : Option (Str → Option Mat)
  metaFieldWeights : Str → Option ℚ

/-- The field-scoring loop over preloaded per-field matrices (lines 455-469):
a field key absent from the store is skipped (`continue`); a failing row
lookup raises, which the enclosing `except` turns into an empty list. -/
def fieldScoresFromMats (femb : Str → Option Mat) (qe : Vec) (idx : ℕ) :
    Option (List (Str × ℚ)) :=
  FIELD_NAMES.foldlM (fun acc f =>
    match femb f with
    | none => some acc
    | some mat =>
      match mat[idx]? with
      | none => none
      | some row => some (acc ++ [(f, dot qe row)])) []

/-- The vectorizer fallback of the field scoring (lines 470-485). -/
def fieldScoresVect (sqrt : ℚ → ℚ) (vt : Str → Vec) (q : Str) (m : SMeta) :
    List (Str × ℚ) :=
  FIELD_NAMES.map (fun f =>
    (f, dot (l2normalize sqrt (vt q)) (l2normalize sqrt (vt (metaField m f)))))

/-- Lines 452-488: the matched-fields evidence of one candidate; any failure
inside the `try` yields `[]`. -/
def fieldScoresOf (env : SearchEnv) (use : Use) (sbertEmb tfidfEmb : Option Vec)
    (q : Str) (m : SMeta) (idx : ℕ) : List (Str × ℚ) :=
  match (decide (use = Use.sbert ∨ use = Use.hybrid)), env.sbertFieldEmb, sbertEmb with
  | true, some femb, some qe => (fieldScoresFromMats femb qe idx).getD []
  | _, _, _ =>
    match env.tfidfFieldEmb, tfidfEmb with
    | some femb, some qe => (fieldScoresFromMats femb qe idx).getD []
    | _, _ =>
      match env.vtrans with
      | none => []
      | some vt => fieldScoresVect env.sqrt vt q m

/-- Python `max(field_scores, key=lambda x: x['score'])`: the first maximal
element of a nonempty list. -/
def maxByScore : List (Str × ℚ) → Option (Str × ℚ)
  | [] => none
  | x :: xs => some (xs.foldl (fun best y => if y.2 > best.2 then y else best) x)

/-- Lines 499-502: the additive exact-match bonus. -/
def exactBonus (q : Str) (m : SMeta) : ℚ :=
  if detectExactMatch q m then EXACT_MATCH_BONUS else 0

/-- Lines 503-511: the `0.05`-scaled weighted-average field-evidence bonus. -/
def fieldBonus (nfw : List (Str × ℚ)) (fscores : List (Str × ℚ)) : ℚ :=
  if fscores = [] then 0
  else
    if 0 < (fscores.map (fun e => (nfw.lookup e.1).getD 0)).sum then
      (5/100) * ((fscores.map (fun e => e.2 * ((nfw.lookup e.1).getD 0))).sum
        / (fscores.map (fun e => (nfw.lookup e.1).getD 0)).sum)
    else 0

/-- One entry of the response's `results` list (lines 513-533); the
passthrough keys not read by any claim (`contact`, `security_score`) and the
hybrid `engine_score_components` echo are omitted. -/
structure ResultRow where
  id : Str
  name : Str
  description : Str
  score : ℚ
  matchedFields : List (Str × ℚ)
  topField : Option Str
  snippet : Str
  tags : List Str
  owner : Str
  source : Str
  requiresInternet : Bool
  engineScores : Option (ℚ × ℚ)
  exactMatch : Bool
deriving DecidableEq

/-- Truthiness of the raw filter parameters, line 448:
`if tags or owner or source or requires_internet is not None:`. -/
def filtersActive (tagsParam ownerParam sourceParam : Option Str)
    (ri : Option Bool) : Bool :=
  ¬ (tagsParam = none ∨ tagsParam = some [])
    ∨ ¬ (ownerParam = none ∨ ownerParam = some [])
    ∨ ¬ (sourceParam = none ∨ sourceParam = some [])
    ∨ ri ≠ none

/-- `tags.split(',') if tags else None` (lines 410 and 449). -/
def tagsArg : Option Str → Option (List Str)
  | none => none
  | some s => if s = [] then none else some (pySplitComma s)

/-- The record assembled for one surviving candidate (lines 452-533). -/
def mkRow (env : SearchEnv) (use : Use) (q : Str) (nfw : List (Str × ℚ))
    (sbertEmb tfidfEmb : Option Vec) (hybridInfo : Option (List (ℤ × ℚ × ℚ)))
    (score : ℚ) (idxZ : ℤ) (m : SMeta) : ResultRow :=
  { id := m.id
    name := m.name
    description := m.description
    score := score + exactBonus q m
      + fieldBonus nfw (fieldScoresOf env use sbertEmb tfidfEmb q m idxZ.toNat)
    matchedFields := fieldScoresOf env use sbertEmb tfidfEmb q m idxZ.toNat
    topField := (maxByScore (fieldScoresOf env use sbertEmb tfidfEmb q m idxZ.toNat)).map
      (fun tf => tf.1)
    snippet :=
      match maxByScore (fieldScoresOf env use sbertEmb tfidfEmb q m idxZ.toNat) with
      | some tf => (metaField m tf.1).take 240
      | none => m.description.take 240
    tags := m.tags
    owner := m.owner
    source := m.source
    requiresInternet := m.requiresInternet
    engineScores :=
      match use, hybridInfo with
      | Use.hybrid, some hi => hi.lookup idxZ
      | _, _ => none
    exactMatch := detectExactMatch q m }

/-- One iteration of the result loop (lines 444-534): `none` when the
candidate is skipped (out-of-range index, line 445, or failed per-row filter
check, lines 448-451). -/
def buildRow (env : SearchEnv) (use : Use) (q : Str) (nfw : List (Str × ℚ))
    (sbertEmb tfidfEmb : Option Vec)
    (tagsParam ownerParam sourceParam : Option Str) (ri : Option Bool)
    (hybridInfo : Option (List (ℤ × ℚ × ℚ))) (p : ℚ × ℤ) : Option ResultRow :=
  if p.2 < 0 ∨ env.metas.length ≤ p.2.toNat then none
  else
    match env.metas[p.2.toNat]? with
    | none => none
    | some m =>
      if filtersActive tagsParam ownerParam sourceParam ri
          ∧ applyMetadataFilters [m] (tagsArg tagsParam) ownerParam sourceParam ri
              = [] then
        none
      else
        some (mkRow env use q nfw sbertEmb tfidfEmb hybridInfo p.1 p.2 m)

/-- `results.sort(key=lambda r: r.get('score', 0.0), reverse=True)`
(line 535): a stable descending sort, as Python's Timsort. -/
def sortRowsDesc (rows : List ResultRow) : List ResultRow :=
  rows.mergeSort (fun a b => b.score ≤ a.score)

/-- The response of `search` (lines 536-548); the `query` and `filters`
echoes are omitted. -/
structure SearchOutput where
  engineUsed : Use
  hybridWeight : Option ℚ
  fieldWeights : List (Str × ℚ)
  results : List ResultRow
deriving DecidableEq

/-- The hybrid candidate selection (lines 376-427): over-fetch `max(k, 4k)`
capped at the corpus size from both engines, blend (`hybridCombined`), sort
descending, keep the candidates whose id survives the metadata filters, and
truncate to `k`.  A row index out of the metadata range raises (`metas[idx]`,
line 407), which the enclosing `except` maps to a 500. -/
def hybridTop (env : SearchEnv) (q : Str) (k : ℕ) (weight : ℚ)
    (tagsParam ownerParam sourceParam : Option Str) (ri : Option Bool) :
    Except ℕ (List HybridEntry) :=
  match (List.mergeSort
      (hybridCombined weight (selectHybridAlpha q)
        (env.sbertSearch (min env.metas.length (max k (k * 4))))
        (env.tfidfSearch (min env.metas.length (max k (k * 4)))))
      (fun a b => b.score ≤ a.score)).mapM
      (fun e => if e.idx < 0 then none else env.metas[e.idx.toNat]?) with
  | none => .error 500
  | some candidates =>
    .ok (((List.mergeSort
        (hybridCombined weight (selectHybridAlpha q)
          (env.sbertSearch (min env.metas.length (max k (k * 4))))
          (env.tfidfSearch (min env.metas.length (max k (k * 4)))))
        (fun a b => b.score ≤ a.score)).filter
      (fun e =>
        match (if e.idx < 0 then none else env.metas[e.idx.toNat]?) with
        | some m =>
          ((applyMetadataFilters candidates (tagsArg tagsParam) ownerParam
              sourceParam ri).map (fun r => r.id)).contains m.id
        | none => false)).take k)

/-- `search` (lines 296-548), from the guard `Index not built` through the
response assembly.  Validation order follows the source: 503 when nothing is
loaded (line 308), 400 for an unknown engine (line 313), 400 for an
out-of-range hybrid weight (line 322), 503s from engine resolution
(lines 335-351), 503 when the tfidf vectorizer is needed but absent
(line 363). -/
def searchCore (env : SearchEnv) (q : Str) (k : ℕ) (engineParam : Str)
    (hybridWeightParam : Option ℚ)
    (tagsParam ownerParam sourceParam : Option Str) (ri : Option Bool)
    (overrideW : Str → Option ℚ) : Except ℕ SearchOutput :=
  if env.metas = [] ∨ (env.sbertIndexLoaded = false ∧ env.tfidfIndexLoaded = false) then
    .error 503
  else if allowedEngine (pyLower (if engineParam = [] then str "auto" else engineParam))
      = false then
    .error 400
  else if hybridWeightParam.getD DEFAULT_HYBRID_NLP_WEIGHT < 0
      ∨ 1 < hybridWeightParam.getD DEFAULT_HYBRID_NLP_WEIGHT then
    .error 400
  else
    match resolveUse env.modelLoaded env.sbertIndexLoaded env.tfidfIndexLoaded
        (pyLower (if engineParam = [] then str "auto" else engineParam)) with
    | .error c => .error c
    | .ok use =>
      match (if use = Use.tfidf ∨ use = Use.hybrid then
               match env.vtrans with
               | none => Except.error 503
               | some vt => Except.ok (some (l2normalize env.sqrt (vt q)))
             else Except.ok none : Except ℕ (Option Vec)) with
      | .error c => .error c
      | .ok tfidfEmb =>
        if use = Use.hybrid then
          match hybridTop env q k (hybridWeightParam.getD DEFAULT_HYBRID_NLP_WEIGHT)
              tagsParam ownerParam sourceParam ri with
          | .error c => .error c
          | .ok top =>
            .ok { engineUsed := use
                  hybridWeight := some (hybridWeightParam.getD DEFAULT_HYBRID_NLP_WEIGHT)
                  fieldWeights := normalizeFieldWeightsSvc env.metaFieldWeights overrideW
                  results := sortRowsDesc ((top.map (fun e => (e.score, e.idx))).filterMap
                    (buildRow env use q
                      (normalizeFieldWeightsSvc env.metaFieldWeights overrideW)
                      (if env.modelLoaded then some env.sbertQueryEmb else none)
                      tfidfEmb tagsParam ownerParam sourceParam ri
                      (some (top.map (fun e => (e.idx, e.rawSbert, e.rawTfidf)))))) }
        else
          .ok { engineUsed := use
                hybridWeight := none
                fieldWeights := normalizeFieldWeightsSvc env.metaFieldWeights overrideW
                results := sortRowsDesc
                  ((if use = Use.sbert then
                      env.sbertSearch (min env.metas.length (max k (k * 3)))
                    else
                      env.tfidfSearch (min env.metas.length (max k (k * 3)))).filterMap
                    (buildRow env use q
                      (normalizeFieldWeightsSvc env.metaFieldWeights overrideW)
                      (if (use = Use.sbert ∨ use = Use.hybrid) ∧ env.modelLoaded then
                         some env.sbertQueryEmb
                       else none)
                      tfidfEmb tagsParam ownerParam sourceParam ri none)) }

/-- A one-document metadata sidecar for concrete environments. -/
def demoMeta : SMeta where
  id := str "demo"
  name := str "demo skill"
  description := str "a demo"
  excerpt := str ""
  tags := [str "video"]
  owner := str "alice"
  source := str "hub"
  requiresInternet := false

/-- An environment whose sbert model failed to load while the tfidf side is
fully available. -/
def envNoModel : SearchEnv where
  metas := [demoMeta]
  modelLoaded := false
  sbertIndexLoaded := true
  tfidfIndexLoaded := true
  sbertSearch := fun _ => []
  tfidfSearch := fun _ => [(1, 0)]
  sbertQueryEmb := []
  vtrans := some (fun _ => [0])
  sqrt := zeroOneSqrt
  sbertFieldEmb := none
  tfidfFieldEmb := none
  metaFieldWeights := fun _ => none

/-- What the specification promises of an active metadata filter set: every
requested tag present, owner and source exact (normalized) matches, and the
internet-requirement boolean equal — vacuously true for inactive filters. -/
def SatisfiesFilters (tagsParam ownerParam sourceParam : Option Str)
    (ri : Option Bool) (row : ResultRow) : Prop :=
  (∀ t ∈ tagSetOf (tagsArg tagsParam),
      t ∈ row.tags.map (fun u => pyLower (pyStrip u)))
  ∧ (∀ o, normActive ownerParam = some o → pyLower (pyStrip row.owner) = o)
  ∧ (∀ s, normActive sourceParam = some s → pyLower (pyStrip row.source) = s)
  ∧ (∀ b, ri = some b → row.requiresInternet = b)

/-- Four plain documents for the over-fetch counterexample. -/
def mkPlainMeta (idv namev : String) : SMeta where
  id := str idv
  name := str namev
  description := str ""
  excerpt := str ""
  tags := []
  owner := str "o"
  source := str "s"
  requiresInternet := false

/-- Environment with a four-document corpus, tfidf-only, whose similarity
search returns three candidates. -/
def env3 : SearchEnv where
  metas := [mkPlainMeta "a" "aa", mkPlainMeta "b" "bb", mkPlainMeta "c" "cc",
            mkPlainMeta "d" "dd"]
  modelLoaded := false
  sbertIndexLoaded := false
  tfidfIndexLoaded := true
  sbertSearch := fun _ => []
  tfidfSearch := fun _ => [(3, 0), (2, 1), (1, 2)]
  sbertQueryEmb := []
  vtrans := some (fun _ => [0])
  sqrt := zeroOneSqrt
  sbertFieldEmb := none
  tfidfFieldEmb := none
  metaFieldWeights := fun _ => none

/-- The single-engine over-fetched candidate list of the non-hybrid path
(lines 428-435 of `service.py`): `k * 3` requested, capped by the corpus
size. -/
def nonHybridCandidates (env : SearchEnv) (use : Use) (k : ℕ) : List (ℚ × ℤ) :=
  if use = Use.sbert then
    env.sbertSearch (min env.metas.length (max k (k * 3)))
  else
    env.tfidfSearch (min env.metas.length (max k (k * 3)))

/-- `env3` with the SBERT model and index available, for the dense
single-engine run: the similarity search returns two candidates. -/
def env3s : SearchEnv :=
  { env3 with
    modelLoaded := true
    sbertIndexLoaded := true
    sbertSearch := fun _ => [(2, 0), (1, 1)] }

/-- The three result rows of the concrete tfidf run on `env3`, as produced by
the result-construction loop. -/
def env3Rows : List ResultRow :=
  [mkRow env3 Use.tfidf (str "zzz")
     (normalizeFieldWeightsSvc env3.metaFieldWeights (fun _ => none))
     none (some (l2normalize env3.sqrt [0])) none 3 0 (mkPlainMeta "a" "aa"),
   mkRow env3 Use.tfidf (str "zzz")
     (normalizeFieldWeightsSvc env3.metaFieldWeights (fun _ => none))
     none (some (l2normalize env3.sqrt [0])) none 2 1 (mkPlainMeta "b" "bb"),
   mkRow env3 Use.tfidf (str "zzz")
     (normalizeFieldWeightsSvc env3.metaFieldWeights (fun _ => none))
     none (some (l2normalize env3.sqrt [0])) none 1 2 (mkPlainMeta "c" "cc")]

/-- Hybrid environment with two documents whose combined scores tie at 0
(degenerate min-max case): document `b` exactly matches the query and would
earn a bonus of `0.18`, document `a` earns none. -/
def env4 : SearchEnv where
  metas := [mkPlainMeta "a" "aaa", mkPlainMeta "b" "b"]
  modelLoaded := true
  sbertIndexLoaded := true
  tfidfIndexLoaded := true
  sbertSearch := fun _ => [(1, 0), (1, 1)]
  tfidfSearch := fun _ => [(1, 0), (1, 1)]
  sbertQueryEmb := [1, 0]
  vtrans := some (fun s => if s = str "b" then [1, 0] else [0, 1])
  sqrt := zeroOneSqrt
  sbertFieldEmb := none
  tfidfFieldEmb := none
  metaFieldWeights := fun _ => none

/-! ## The index-building state model (`build_index.py` lines 143-457)

The persisted artifacts (faiss index files, metadata sidecar, pickled
vectorizer, per-field npz archives) are modelled as slots of a `Store`
record; resolved filesystem paths are identified with their slots.  The
fitted `TfidfVectorizer` and the SBERT `model.encode` are external
providers: fitting yields a frozen transform `Str → Vec`, and
`sbertEncode = none` covers every way the SBERT section is skipped or its
`try` block aborts (SBERT not importable, disabled, unreachable, or the
provider raising mid-section, which `update_index`/`build_index` catch). -/

/-- `_coalesce_text` (lines 83-88) on an optional string value. -/
def coalesce : Option Str → Str
  | none => []
  | some s => pyStrip s

/-- Python `a or b` on two optional strings (`item.get('path') or
item.get('skill_path')`, truthiness: `None` and `''` are falsy). -/
def pyOr : Option Str → Option Str → Option Str
  | none, b => b
  | some s, b => if s = [] then b else some s

/-- Python `' '.join(...)`. -/
def joinStrs : List Str → Str
  | [] => []
  | [x] => x
  | x :: y :: xs => x ++ str " " ++ joinStrs (y :: xs)

/-- `' '.join(filter(None, xs))`: join the non-empty components. -/
def joinNonEmpty (xs : List Str) : Str := joinStrs (xs.filter (fun x => x ≠ []))

/-- A JSON value as stored in the metadata sidecar records. -/
inductive JVal where
  | jnull : JVal
  | jstr : Str → JVal
  | jstrList : List Str → JVal
  | jnum : ℚ → JVal
  | jint : ℤ → JVal
  | jbool : Bool → JVal
deriving DecidableEq

def optJStr : Option Str → JVal
  | none => JVal.jnull
  | some s => JVal.jstr s

def optJNum : Option ℚ → JVal
  | none => JVal.jnull
  | some q => JVal.jnum q

def optJInt : Option ℤ → JVal
  | none => JVal.jnull
  | some n => JVal.jint n

def optJBool : Option Bool → JVal
  | none => JVal.jnull
  | some b => JVal.jbool b

/-- One metadata record: an ordered JSON object (Python dicts keep insertion
order, and `json.dump` writes keys in that order). -/
abbrev MetaRec := List (Str × JVal)

/-- One corpus item as produced by `load_from_db` / the corpus file: a JSON
object whose fields may be absent or `None`. -/
structure Doc where
  id : Option Str
  path : Option Str
  skillPath : Option Str
  name : Option Str
  nameZh : Option Str
  description : Option Str
  descriptionZh : Option Str
  excerpt : Option Str
  tags : Str ⊕ List Str
  owner : Option Str
  contact : Option Str
  source : Option Str
  weight : Option ℚ
  installs : Option ℤ
  stars : Option ℤ
  securityScore : Option ℚ
  securityData : Option Str
  requiresInternet : Option Bool
deriving DecidableEq

/-- `tags = item.get('tags', [])`, split and stripped when it is a string
(lines 181-183 and 359-361). -/
def tagsOf (d : Doc) : List Str :=
  match d.tags with
  | Sum.inl s => ((pySplitComma s).filter (fun t => pyStrip t ≠ [])).map pyStrip
  | Sum.inr l => l

/-- The per-document `name` text of `build_index` (lines 167-170):
primary and secondary language joined. -/
def buildNameText (d : Doc) : Str :=
  joinNonEmpty [coalesce d.name, coalesce d.nameZh]

/-- The per-document `description` text of `build_index` (lines 171-174). -/
def buildDescriptionText (d : Doc) : Str :=
  joinNonEmpty [coalesce d.description, coalesce d.descriptionZh]

/-- The per-field texts fed to the vectorizer by `build_index`
(lines 178-180). -/
def buildFieldText (d : Doc) (f : Str) : Str :=
  if f = str "name" then buildNameText d
  else if f = str "description" then buildDescriptionText d
  else if f = str "excerpt" then coalesce d.excerpt
  else []

/-- The whole-document text fed to the vectorizer by `build_index`
(line 176). -/
def buildDocText (d : Doc) : Str :=
  joinNonEmpty [buildNameText d, buildDescriptionText d, coalesce d.excerpt]

/-- The per-field texts fed to the vectorizer by `update_index`
(lines 350-357): primary language only. -/
def updateFieldText (d : Doc) (f : Str) : Str :=
  if f = str "name" then coalesce d.name
  else if f = str "description" then coalesce d.description
  else if f = str "excerpt" then coalesce d.excerpt
  else []

/-- The whole-document text fed to the vectorizer by `update_index`
(line 353). -/
def updateDocText (d : Doc) : Str :=
  joinNonEmpty [coalesce d.name, coalesce d.description, coalesce d.excerpt]

/-- The metadata record appended by `build_index` (lines 184-202): includes
the `name_zh` and `description_zh` keys. -/
def buildMetaRec (d : Doc) : MetaRec :=
  [(str "id", optJStr d.id),
   (str "path", optJStr (pyOr d.path d.skillPath)),
   (str "name", optJStr d.name),
   (str "name_zh", optJStr d.nameZh),
   (str "description", optJStr d.description),
   (str "description_zh", optJStr d.descriptionZh),
   (str "excerpt", optJStr d.excerpt),
   (str "tags", JVal.jstrList (tagsOf d)),
   (str "owner", optJStr d.owner),
   (str "contact", optJStr d.contact),
   (str "source", optJStr d.source),
   (str "weight", optJNum d.weight),
   (str "installs", optJInt d.installs),
   (str "stars", optJInt d.stars),
   (str "security_score", optJNum d.securityScore),
   (str "security_data", optJStr d.securityData),
   (str "requires_internet", optJBool d.requiresInternet)]

/-- The metadata record appended by `update_index` (lines 363-379): the
`name_zh` and `description_zh` keys are omitted. -/
def updateMetaRec (d : Doc) : MetaRec :=
  [(str "id", optJStr d.id),
   (str "path", optJStr (pyOr d.path d.skillPath)),
   (str "name", optJStr d.name),
   (str "description", optJStr d.description),
   (str "excerpt", optJStr d.excerpt),
   (str "tags", JVal.jstrList (tagsOf d)),
   (str "owner", optJStr d.owner),
   (str "contact", optJStr d.contact),
   (str "source", optJStr d.source),
   (str "weight", optJNum d.weight),
   (str "installs", optJInt d.installs),
   (str "stars", optJInt d.stars),
   (str "security_score", optJNum d.securityScore),
   (str "security_data", optJStr d.securityData),
   (str "requires_internet", optJBool d.requiresInternet)]

/-- `_normalize_field_weights` of `build_index.py` (lines 97-109), as a
function on field names. -/
def normalizeFieldWeightsBuild (w : Str → ℚ) (f : Str) : ℚ :=
  if (FIELD_NAMES.map (fun g => if w g < 0 then 0 else w g)).sum ≤ 0 then
    1 / (FIELD_NAMES.length : ℚ)
  else
    (if w f < 0 then 0 else w f)
      / (FIELD_NAMES.map (fun g => if w g < 0 then 0 else w g)).sum

/-- scipy `mat.multiply(weight)` with a scalar. -/
def scaleMat (c : ℚ) (m : Mat) : Mat := m.map (fun row => row.map (fun x => c * x))

/-- The `tfidf_weighted` accumulation loop shared by `build_index`
(lines 209-215) and `update_index` (lines 384-390): `None` models the Python
`tfidf_weighted is None` state. -/
def tfidfWeightedMats (mats : Str → Mat) (fw : Str → ℚ) : Option Mat :=
  FIELD_NAMES.foldl (fun acc f =>
    match acc with
    | none => some (scaleMat (fw f) (mats f))
    | some t => some (addMat t (scaleMat (fw f) (mats f)))) none

/-- The content of the index-metadata sidecar written by `build_index`
(lines 290-307); the environment-dependent path entries are omitted. -/
structure IndexMeta where
  embeddingType : Str
  availableEngines : List Str
  fieldWeights : List (Str × ℚ)
deriving DecidableEq

/-- The persisted artifacts, one slot per resolved output path: the metadata
sidecar, the primary faiss index (`skills.idx`), the tfidf faiss index
(`skills_tfidf.idx`), the pickled vectorizer, the two per-field npz archives
and the index-metadata sidecar.  A faiss `IndexFlatIP` is its row matrix. -/
structure Store where
  metaFile : Option (List MetaRec)
  indexFile : Option Mat
  tfidfIndexFile : Option Mat
  vectorizerFile : Option (Str → Vec)
  tfidfFieldsFile : Option (List (Str × Mat))
  sbertFieldsFile : Option (List (Str × Mat))
  indexMetaFile : Option IndexMeta

/-- The external providers of an indexing run: fitting a vectorizer on a
text corpus yields a frozen transform, `sbertEncode` is the SBERT model
(`none` when SBERT is unavailable or its guarded section raises), and
`sqrt` backs `np.linalg.norm`. -/
structure BuildEnv where
  fit : List Str → (Str → Vec)
  sbertEncode : Option (List Str → Mat)
  sqrt : ℚ → ℚ

/-- `build_index` (lines 143-309) on an already-loaded corpus: no-op on an
empty corpus, else fit the vectorizer, build the tfidf matrices, try the
SBERT section, and write every artifact slot (in the tfidf fallback the
combined tfidf index is written to the primary index path and
`skills_tfidf.idx` is left untouched, as is the SBERT npz). -/
def buildIndex (env : BuildEnv) (corpus : List Doc) (st : Store) : Store :=
  if corpus.isEmpty then st
  else
    let metas := corpus.map buildMetaRec
    let texts := corpus.map buildDocText
    let fieldTexts := fun f => corpus.map (fun d => buildFieldText d f)
    let fw := normalizeFieldWeightsBuild defaultFieldWeight
    let vec := env.fit texts
    let X := texts.map vec
    let fieldMats := fun f => (fieldTexts f).map vec
    let tfidfEmb := normalizeRows env.sqrt ((tfidfWeightedMats fieldMats fw).getD X)
    let tfidfFields := FIELD_NAMES.map (fun f => (f, normalizeRows env.sqrt (fieldMats f)))
    match env.sbertEncode with
    | some enc =>
      match combineFieldEmbeddings env.sqrt
          ⟨fun f => some (enc (fieldTexts f)), fieldTexts, fw⟩ with
      | some emb =>
        { metaFile := some metas
          indexFile := some emb
          tfidfIndexFile := some tfidfEmb
          vectorizerFile := some vec
          tfidfFieldsFile := some tfidfFields
          sbertFieldsFile := some (FIELD_NAMES.map (fun f => (f, enc (fieldTexts f))))
          indexMetaFile := some
            { embeddingType := str "hybrid"
              availableEngines := [str "tfidf", str "sbert", str "hybrid"]
              fieldWeights := FIELD_NAMES.map (fun f => (f, fw f)) } }
      | none =>
        { metaFile := some metas
          indexFile := some tfidfEmb
          tfidfIndexFile := st.tfidfIndexFile
          vectorizerFile := some vec
          tfidfFieldsFile := some tfidfFields
          sbertFieldsFile := st.sbertFieldsFile
          indexMetaFile := some
            { embeddingType := str "tfidf"
              availableEngines := [str "tfidf"]
              fieldWeights := FIELD_NAMES.map (fun f => (f, fw f)) } }
    | none =>
      { metaFile := some metas
        indexFile := some tfidfEmb
        tfidfIndexFile := st.tfidfIndexFile
        vectorizerFile := some vec
        tfidfFieldsFile := some tfidfFields
        sbertFieldsFile := st.sbertFieldsFile
        indexMetaFile := some
          { embeddingType := str "tfidf"
            availableEngines := [str "tfidf"]
            fieldWeights := FIELD_NAMES.map (fun f => (f, fw f)) } }

/-- `{m['id'] for m in existing_metas}` (line 325). -/
def indexedIdsOf (ms : List MetaRec) : List JVal :=
  ms.map (fun m => (m.lookup (str "id")).getD JVal.jnull)

/-- `[s for s in all_skills if s['id'] not in indexed_ids]` (line 328): the
corpus items whose id is absent from the stored metadata. -/
def newSkillsOf (ms : List MetaRec) (corpus : List Doc) : List Doc :=
  corpus.filter (fun s => optJStr s.id ∉ indexedIdsOf ms)

/-- `update_index` (lines 312-457) on an already-loaded corpus: falls back to
a full build when the metadata sidecar is missing, or (with new documents
present) when the primary index file or the pickled vectorizer is missing;
no-op when no corpus id is new; otherwise transforms only the new documents
with the loaded vectorizer, appends their rows to the tfidf index (to the
primary index file when `skills_tfidf.idx` is absent), vstacks the tfidf
per-field npz when present, runs the guarded SBERT section, and finally
rewrites the metadata sidecar with the new records appended. -/
def updateIndex (env : BuildEnv) (corpus : List Doc) (st : Store) : Store :=
  match st.metaFile with
  | none => buildIndex env corpus st
  | some existingMetas =>
    let newSkills := newSkillsOf existingMetas corpus
    if newSkills.isEmpty then st
    else
      match st.indexFile, st.vectorizerFile with
      | some idx0, some vec =>
        let newTexts := newSkills.map updateDocText
        let newFieldTexts := fun f => newSkills.map (fun d => updateFieldText d f)
        let fw := normalizeFieldWeightsBuild defaultFieldWeight
        let newFieldMats := fun f => (newFieldTexts f).map vec
        let newTfidfEmb := normalizeRows env.sqrt
          ((tfidfWeightedMats newFieldMats fw).getD (newTexts.map vec))
        let st1 :=
          match st.tfidfIndexFile with
          | some t => { st with tfidfIndexFile := some (t ++ newTfidfEmb) }
          | none => { st with indexFile := some (idx0 ++ newTfidfEmb) }
        let st2 :=
          match st1.tfidfFieldsFile with
          | some old =>
            { st1 with tfidfFieldsFile := some (FIELD_NAMES.map (fun f =>
                (f, match old.lookup f with
                    | some o => o ++ normalizeRows env.sqrt (newFieldMats f)
                    | none => normalizeRows env.sqrt (newFieldMats f)))) }
          | none => st1
        let st3 :=
          match env.sbertEncode, st2.indexFile with
          | some enc, some sidx =>
            let st2a :=
              match st2.sbertFieldsFile with
              | some old =>
                { st2 with sbertFieldsFile := some (FIELD_NAMES.map (fun f =>
                    (f, match old.lookup f with
                        | some o => o ++ enc (newFieldTexts f)
                        | none => enc (newFieldTexts f)))) }
              | none => st2
            match combineFieldEmbeddings env.sqrt
                ⟨fun f => some (enc (newFieldTexts f)), newFieldTexts, fw⟩ with
            | some emb => { st2a with indexFile := some (sidx ++ emb) }
            | none => st2a
          | _, _ => st2
        { st3 with metaFile := some (existingMetas ++ newSkills.map updateMetaRec) }
      | _, _ => buildIndex env corpus st

/-- The length contribution of one component of a space-join: 0 when empty,
length plus one separator otherwise. -/
def gLen (s : Str) : ℕ := if s = [] then 0 else s.length + 1

/-- A two-element corpus doc with only id and name set. -/
def mkDoc (idv : String) : Doc where
  id := some (str idv)
  path := none
  skillPath := none
  name := some (str idv)
  nameZh := none
  description := none
  descriptionZh := none
  excerpt := none
  tags := Sum.inr []
  owner := none
  contact := none
  source := none
  weight := none
  installs := none
  stars := none
  securityScore := none
  securityData := none
  requiresInternet := none

/-- Providers for the concrete update runs: SBERT section skipped/aborted. -/
def env5 : BuildEnv where
  fit := fun _ => fun _ => [1, 0]
  sbertEncode := none
  sqrt := zeroOneSqrt

/-- A store already holding documents `A` and `B`. -/
def store5 : Store where
  metaFile := some [updateMetaRec (mkDoc "A"), updateMetaRec (mkDoc "B")]
  indexFile := some [[1, 0], [0, 1]]
  tfidfIndexFile := some [[1, 0], [0, 1]]
  vectorizerFile := some (fun _ => [1, 0])
  tfidfFieldsFile := none
  sbertFieldsFile := none
  indexMetaFile := none

/-- The corpus `{A, B, D}` for the incremental update. -/
def corpus5 : List Doc := [mkDoc "A", mkDoc "B", mkDoc "D"]

/-- A one-document store with every artifact present (hybrid index). -/
def store6 : Store where
  metaFile := some [updateMetaRec (mkDoc "A")]
  indexFile := some [[1, 0]]
  tfidfIndexFile := some [[1, 0]]
  vectorizerFile := some (fun _ => [1, 0])
  tfidfFieldsFile := some [(str "name", [[1, 0]]), (str "description", [[1, 0]]),
    (str "excerpt", [[1, 0]])]
  sbertFieldsFile := some [(str "name", [[1, 0]]), (str "description", [[1, 0]]),
    (str "excerpt", [[1, 0]])]
  indexMetaFile := none

/-- The corpus `{A, B}` whose update hits the aborted SBERT section. -/
def corpus6 : List Doc := [mkDoc "A", mkDoc "B"]

/-- A document with a non-empty secondary-language name. -/
def docZh : Doc := { mkDoc "A" with nameZh := some (str "zh") }

/-- Closed form of `_select_hybrid_alpha` as a clamped linear interpolation:
the low bound plus `min 3 (n-2)` thirds of the span (span `= 1/5`, a third of
it `= 1/15`). -/
theorem selectHybridAlphaOfLength_eq (n : ℕ) :
    selectHybridAlphaOfLength n = 55/100 + (min 3 (n - 2) : ℕ) * (1/15) := by
  match n with
  | 0 | 1 | 2 | 3 | 4 =>
    norm_num [selectHybridAlphaOfLength, DEFAULT_HYBRID_ALPHA_SHORT_QUERY,
      DEFAULT_HYBRID_ALPHA_LONG_QUERY]
  | (m + 5) =>
    have h1 : ¬ (m + 5 ≤ 2) := by omega
    have h2 : 5 ≤ m + 5 := by omega
    have h3 : min 3 (m + 5 - 2) = 3 := by omega
    rw [selectHybridAlphaOfLength, if_neg h1, if_pos h2, h3]
    norm_num [DEFAULT_HYBRID_ALPHA_SHORT_QUERY, DEFAULT_HYBRID_ALPHA_LONG_QUERY]

/-- C7: the adaptive blend factor is monotonically non-decreasing in the
whitespace-token count of the query, equals the low bound `0.55` for queries
of at most 2 tokens (in particular exactly at 2), the high bound `0.75` for
queries of at least 5 tokens (in particular exactly at 5), and interpolates
linearly (one third of the span per extra token) at token counts 3 and 4. -/
theorem C7_adaptive_blend_factor :
    (∀ m n : ℕ, m ≤ n → selectHybridAlphaOfLength m ≤ selectHybridAlphaOfLength n)
    ∧ (∀ q : Str, queryLength q ≤ 2 →
        selectHybridAlpha q = DEFAULT_HYBRID_ALPHA_SHORT_QUERY)
    ∧ (∀ q : Str, 5 ≤ queryLength q →
        selectHybridAlpha q = DEFAULT_HYBRID_ALPHA_LONG_QUERY)
    ∧ (∀ q : Str, queryLength q = 3 →
        selectHybridAlpha q = DEFAULT_HYBRID_ALPHA_SHORT_QUERY
          + (DEFAULT_HYBRID_ALPHA_LONG_QUERY - DEFAULT_HYBRID_ALPHA_SHORT_QUERY) / 3)
    ∧ (∀ q : Str, queryLength q = 4 →
        selectHybridAlpha q = DEFAULT_HYBRID_ALPHA_SHORT_QUERY
          + 2 * ((DEFAULT_HYBRID_ALPHA_LONG_QUERY - DEFAULT_HYBRID_ALPHA_SHORT_QUERY) / 3)) := by
  refine ⟨?_, ?_, ?_, ?_, ?_⟩
  · intro m n hmn
    rw [selectHybridAlphaOfLength_eq, selectHybridAlphaOfLength_eq]
    have hle : min 3 (m - 2) ≤ min 3 (n - 2) := by omega
    have : ((min 3 (m - 2) : ℕ) : ℚ) ≤ ((min 3 (n - 2) : ℕ) : ℚ) := by exact_mod_cast hle
    nlinarith
  · intro q hq
    rw [selectHybridAlpha, selectHybridAlphaOfLength, if_pos hq]
  · intro q hq
    have h1 : ¬ (queryLength q ≤ 2) := by omega
    rw [selectHybridAlpha, selectHybridAlphaOfLength, if_neg h1, if_pos hq]
  · intro q hq
    rw [selectHybridAlpha, hq]
    norm_num [selectHybridAlphaOfLength, DEFAULT_HYBRID_ALPHA_SHORT_QUERY,
      DEFAULT_HYBRID_ALPHA_LONG_QUERY]
  · intro q hq
    rw [selectHybridAlpha, hq]
    norm_num [selectHybridAlphaOfLength, DEFAULT_HYBRID_ALPHA_SHORT_QUERY,
      DEFAULT_HYBRID_ALPHA_LONG_QUERY]

/-- Witness for C7 at concrete queries of 1, 2, 3, 4 and 6 tokens. -/
theorem C7_adaptive_blend_factor_witness :
    selectHybridAlphaOfLength 1 ≤ selectHybridAlphaOfLength 6
    ∧ selectHybridAlpha (str "video editor") = DEFAULT_HYBRID_ALPHA_SHORT_QUERY
    ∧ selectHybridAlpha (str "a b c d e f") = DEFAULT_HYBRID_ALPHA_LONG_QUERY
    ∧ selectHybridAlpha (str "a b c") = DEFAULT_HYBRID_ALPHA_SHORT_QUERY
        + (DEFAULT_HYBRID_ALPHA_LONG_QUERY - DEFAULT_HYBRID_ALPHA_SHORT_QUERY) / 3
    ∧ selectHybridAlpha (str "a b c d") = DEFAULT_HYBRID_ALPHA_SHORT_QUERY
        + 2 * ((DEFAULT_HYBRID_ALPHA_LONG_QUERY - DEFAULT_HYBRID_ALPHA_SHORT_QUERY) / 3) :=
  ⟨C7_adaptive_blend_factor.1 1 6 (by decide),
   C7_adaptive_blend_factor.2.1 _ (by decide),
   C7_adaptive_blend_factor.2.2.1 _ (by decide),
   C7_adaptive_blend_factor.2.2.2.1 _ (by decide),
   C7_adaptive_blend_factor.2.2.2.2 _ (by decide)⟩

theorem normalizeScores_getElem (values : List ℚ) (j : ℕ) :
    (normalizeScores values)[j]? = values[j]?.map (minmaxNorm values) := by
  match values with
  | [] => rfl
  | v :: vs =>
    by_cases h : listMax (v :: vs) = listMin (v :: vs)
    · simp only [normalizeScores, if_pos h, List.getElem?_map]
      cases (v :: vs)[j]? <;> simp [minmaxNorm, h]
    · simp only [normalizeScores, if_neg h, List.getElem?_map]
      cases (v :: vs)[j]? <;> simp [minmaxNorm, h]

theorem setEntry_of_not_mem (m : ScoreMap) (k : ℤ) (v : ℚ × ℚ)
    (h : k ∉ mapKeys m) : setEntry m k v = m ++ [(k, v)] := by
  have hany : m.any (fun e => e.1 = k) = false := by
    rw [List.any_eq_false]
    intro e he
    simp only [decide_eq_true_eq]
    intro hk
    exact h (hk ▸ List.mem_map_of_mem (·.1) he)
  rw [setEntry, hany]
  simp

theorem setEntry_of_mem (m : ScoreMap) (k : ℤ) (v : ℚ × ℚ)
    (h : k ∈ mapKeys m) :
    setEntry m k v = m.map (fun e => if e.1 = k then (k, v) else e) := by
  have hany : m.any (fun e => e.1 = k) = true := by
    rw [List.any_eq_true]
    obtain ⟨e, he, hk⟩ := List.mem_map.mp h
    exact ⟨e, he, by simp [hk]⟩
  rw [setEntry, hany]
  simp

theorem getEntry_of_mem (m : ScoreMap) (e : ℤ × ℚ × ℚ) (dflt : ℚ × ℚ)
    (hnd : (mapKeys m).Nodup) (he : e ∈ m) : getEntry m e.1 dflt = e.2 := by
  induction m with
  | nil => cases he
  | cons h t ih =>
    rw [mapKeys, List.map_cons, List.nodup_cons] at hnd
    by_cases hk : h.1 = e.1
    · rw [getEntry, List.find?_cons_of_pos _ (by simp [hk])]
      rcases List.mem_cons.mp he with rfl | ht
      · rfl
      · exact absurd (hk ▸ List.mem_map_of_mem (·.1) ht) hnd.1
    · rw [getEntry, List.find?_cons_of_neg _ (by simp [hk])]
      rcases List.mem_cons.mp he with rfl | ht
      · exact absurd rfl hk
      · exact ih hnd.2 ht

theorem getEntry_of_not_mem (m : ScoreMap) (k : ℤ) (dflt : ℚ × ℚ)
    (h : k ∉ mapKeys m) : getEntry m k dflt = dflt := by
  have hf : m.find? (fun e => e.1 = k) = none := by
    rw [List.find?_eq_none]
    intro e he
    simp only [decide_eq_true_eq]
    intro hk
    exact h (hk ▸ List.mem_map_of_mem (·.1) he)
  rw [getEntry, hf]
  rfl

theorem validIdxs_cons (p : ℚ × ℤ) (res : List (ℚ × ℤ)) :
    validIdxs (p :: res)
      = if p.2 < 0 then validIdxs res else p.2 :: validIdxs res := by
  by_cases h : p.2 < 0
  · simp [validIdxs, List.filter_cons, h]
  · simp [validIdxs, List.filter_cons, h, not_lt.mp h]

theorem retrievedScore_eq_of_mem (res : List (ℚ × ℤ)) (p : ℚ × ℤ)
    (hnd : (validIdxs res).Nodup) (hp : p ∈ res) (hv : ¬ p.2 < 0) :
    retrievedScore res p.2 = p.1 := by
  induction res with
  | nil => cases hp
  | cons q res ih =>
    rw [validIdxs_cons] at hnd
    by_cases hqv : q.2 < 0
    · rw [if_pos hqv] at hnd
      have hq : ¬ (q.2 = p.2) := fun h => hv (h ▸ hqv)
      rw [retrievedScore, List.find?_cons_of_neg _ (by simp [hq])]
      rcases List.mem_cons.mp hp with rfl | hp'
      · exact absurd hqv hv
      · exact ih hnd hp'
    · rw [if_neg hqv, List.nodup_cons] at hnd
      by_cases hq : q.2 = p.2
      · rw [retrievedScore, List.find?_cons_of_pos _ (by simp [hq])]
        rcases List.mem_cons.mp hp with rfl | hp'
        · rfl
        · exfalso
          have : p.2 ∈ validIdxs res :=
            List.mem_map_of_mem (·.2) (List.mem_filter.mpr ⟨hp', by simpa using hv⟩)
          exact hnd.1 (hq ▸ this)
      · rw [retrievedScore, List.find?_cons_of_neg _ (by simp [hq])]
        rcases List.mem_cons.mp hp with rfl | hp'
        · exact absurd rfl hq
        · exact ih hnd.2 hp'

theorem retrievedScore_eq_zero (res : List (ℚ × ℤ)) (i : ℤ)
    (hi : ¬ i < 0) (h : i ∉ validIdxs res) : retrievedScore res i = 0 := by
  have hf : res.find? (fun p => p.2 = i) = none := by
    rw [List.find?_eq_none]
    intro p hp
    simp only [decide_eq_true_eq]
    intro he
    exact h (he ▸ List.mem_map_of_mem (·.2)
      (List.mem_filter.mpr ⟨hp, by simp only [he, decide_eq_true_eq]; exact hi⟩))
  rw [retrievedScore, hf]

theorem insertSbertResults_eq (res : List (ℚ × ℤ)) (m : ScoreMap)
    (hnd : (validIdxs res).Nodup)
    (hfresh : ∀ i ∈ validIdxs res, i ∉ mapKeys m) :
    insertSbertResults m res
      = m ++ (res.filter (fun p => ¬ p.2 < 0)).map (fun p => (p.2, p.1, 0)) := by
  induction res generalizing m with
  | nil => simp [insertSbertResults]
  | cons p res ih =>
    rw [insertSbertResults, List.foldl_cons]
    rw [validIdxs_cons] at hnd hfresh
    by_cases hneg : p.2 < 0
    · rw [if_pos hneg]
      rw [if_pos hneg] at hnd hfresh
      rw [← insertSbertResults, ih m hnd hfresh, List.filter_cons]
      simp [hneg]
    · rw [if_neg hneg]
      rw [if_neg hneg] at hnd hfresh
      rw [List.nodup_cons] at hnd
      have hpm : p.2 ∉ mapKeys m := hfresh p.2 (List.mem_cons_self _ _)
      rw [setEntry_of_not_mem _ _ _ hpm, ← insertSbertResults]
      have hfresh' : ∀ i ∈ validIdxs res, i ∉ mapKeys (m ++ [(p.2, p.1, 0)]) := by
        intro i hiv
        simp only [mapKeys, List.map_append, List.mem_append, List.map_cons,
          List.map_nil, List.mem_singleton]
        rintro (him | rfl)
        · exact hfresh i (List.mem_cons_of_mem _ hiv) him
        · exact hnd.1 hiv
      rw [ih _ hnd.2 hfresh', List.filter_cons]
      simp [hneg, List.append_assoc]

theorem validIdxs_nonneg (res : List (ℚ × ℤ)) :
    ∀ i ∈ validIdxs res, ¬ i < 0 := by
  intro i hi
  obtain ⟨p, hp, rfl⟩ := List.mem_map.mp hi
  have := (List.mem_filter.mp hp).2
  simpa using this

theorem retrievedScore_cons_of_ne (p : ℚ × ℤ) (res : List (ℚ × ℤ)) (i : ℤ)
    (h : ¬ p.2 = i) : retrievedScore (p :: res) i = retrievedScore res i := by
  rw [retrievedScore, List.find?_cons_of_neg _ (by simp [h]), retrievedScore]

theorem retrievedScore_cons_self (p : ℚ × ℤ) (res : List (ℚ × ℤ)) :
    retrievedScore (p :: res) p.2 = p.1 := by
  rw [retrievedScore, List.find?_cons_of_pos _ (by simp)]

theorem insertTfidfResults_eq (res : List (ℚ × ℤ)) (m : ScoreMap)
    (hnd : (validIdxs res).Nodup) (hknd : (mapKeys m).Nodup) :
    insertTfidfResults m res
      = m.map (fun e =>
          if e.1 ∈ validIdxs res then (e.1, e.2.1, retrievedScore res e.1) else e)
        ++ ((res.filter (fun p => ¬ p.2 < 0)).filter
              (fun p => p.2 ∉ mapKeys m)).map (fun p => (p.2, 0, p.1)) := by
  induction res generalizing m with
  | nil =>
    simp [insertTfidfResults, validIdxs]
  | cons p res ih =>
    rw [insertTfidfResults, List.foldl_cons]
    rw [validIdxs_cons] at hnd
    by_cases hneg : p.2 < 0
    · rw [if_pos hneg]
      rw [if_pos hneg] at hnd
      rw [← insertTfidfResults, ih m hnd hknd]
      have hfc : (p :: res).filter (fun p => ¬ p.2 < 0)
          = res.filter (fun p => ¬ p.2 < 0) := by
        rw [List.filter_cons, if_neg (by simp [hneg])]
      rw [hfc, validIdxs_cons, if_pos hneg]
      have hmap : ∀ e ∈ m,
          (if e.1 ∈ validIdxs res then (e.1, e.2.1, retrievedScore res e.1) else e)
            = (if e.1 ∈ validIdxs res then (e.1, e.2.1, retrievedScore (p :: res) e.1)
               else e) := by
        intro e _
        by_cases hev : e.1 ∈ validIdxs res
        · rw [if_pos hev, if_pos hev,
            retrievedScore_cons_of_ne p res e.1 (fun h => validIdxs_nonneg res e.1 hev (h ▸ hneg))]
        · rw [if_neg hev, if_neg hev]
      rw [List.map_congr_left hmap]
    · rw [if_neg hneg]
      rw [if_neg hneg, List.nodup_cons] at hnd
      by_cases hmem : p.2 ∈ mapKeys m
      · rw [setEntry_of_mem _ _ _ hmem, ← insertTfidfResults]
        have hk1 : mapKeys (m.map (fun e =>
            if e.1 = p.2 then (p.2, (getEntry m p.2 (0, 0)).1, p.1) else e))
            = mapKeys m := by
          rw [mapKeys, mapKeys, List.map_map]
          apply List.map_congr_left
          intro e _
          by_cases h : e.1 = p.2 <;> simp [h]
        rw [ih _ hnd.2 (by rw [hk1]; exact hknd), hk1]
        have hfc : (p :: res).filter (fun p => ¬ p.2 < 0)
            = p :: res.filter (fun p => ¬ p.2 < 0) := by
          rw [List.filter_cons, if_pos (by simp [hneg])]
        have hfc2 : ((p :: res).filter (fun p => ¬ p.2 < 0)).filter
              (fun q => q.2 ∉ mapKeys m)
            = (res.filter (fun p => ¬ p.2 < 0)).filter (fun q => q.2 ∉ mapKeys m) := by
          rw [hfc, List.filter_cons, if_neg (by simp [hmem])]
        rw [hfc2]
        have hmap : ∀ e ∈ m,
            (if (if e.1 = p.2 then (p.2, (getEntry m p.2 (0, 0)).1, p.1) else e).1
                  ∈ validIdxs res
             then ((if e.1 = p.2 then (p.2, (getEntry m p.2 (0, 0)).1, p.1) else e).1,
                   (if e.1 = p.2 then (p.2, (getEntry m p.2 (0, 0)).1, p.1) else e).2.1,
                   retrievedScore res
                     (if e.1 = p.2 then (p.2, (getEntry m p.2 (0, 0)).1, p.1) else e).1)
             else (if e.1 = p.2 then (p.2, (getEntry m p.2 (0, 0)).1, p.1) else e))
              = (if e.1 ∈ validIdxs (p :: res)
                 then (e.1, e.2.1, retrievedScore (p :: res) e.1) else e) := by
          intro e he
          by_cases hep : e.1 = p.2
          · rw [if_pos hep]
            have hni : (p.2 : ℤ) ∉ validIdxs res := hnd.1
            have hmemc : e.1 ∈ validIdxs (p :: res) := by
              rw [validIdxs_cons, if_neg hneg, hep]
              exact List.mem_cons_self _ _
            rw [if_pos hmemc]
            simp only [if_neg (show (p.2 : ℤ) ∈ validIdxs res → False from hni)]
            have hge : getEntry m p.2 (0, 0) = e.2 := by
              rw [← hep]
              exact getEntry_of_mem m e (0, 0) hknd he
            rw [hge, hep, retrievedScore_cons_self]
          · rw [if_neg hep]
            have hiff : e.1 ∈ validIdxs (p :: res) ↔ e.1 ∈ validIdxs res := by
              rw [validIdxs_cons, if_neg hneg, List.mem_cons]
              exact ⟨fun h => h.resolve_left hep, Or.inr⟩
            by_cases hev : e.1 ∈ validIdxs res
            · rw [if_pos hev, if_pos (hiff.mpr hev),
                retrievedScore_cons_of_ne p res e.1 (fun h => hep h.symm)]
            · rw [if_neg hev, if_neg (fun h => hev (hiff.mp h))]
        rw [List.map_map]
        congr 1
        exact List.map_congr_left hmap
      · have hget : getEntry m p.2 (0, 0) = (0, 0) := getEntry_of_not_mem _ _ _ hmem
        rw [hget, setEntry_of_not_mem _ _ _ hmem, ← insertTfidfResults]
        have hk1 : mapKeys (m ++ [((p.2 : ℤ), ((0 : ℚ), (0 : ℚ)).1, p.1)])
            = mapKeys m ++ [p.2] := by
          simp [mapKeys]
        have hknd1 : (mapKeys (m ++ [((p.2 : ℤ), ((0 : ℚ), (0 : ℚ)).1, p.1)])).Nodup := by
          rw [hk1, List.nodup_append]
          exact ⟨hknd, List.nodup_singleton _, by
            intro a ha hb
            rw [List.mem_singleton] at hb
            exact hmem (hb ▸ ha)⟩
        rw [ih _ hnd.2 hknd1, hk1]
        have hfc : (p :: res).filter (fun p => ¬ p.2 < 0)
            = p :: res.filter (fun p => ¬ p.2 < 0) := by
          rw [List.filter_cons, if_pos (by simp [hneg])]
        have hfc2 : ((p :: res).filter (fun p => ¬ p.2 < 0)).filter
              (fun q => q.2 ∉ mapKeys m)
            = p :: (res.filter (fun p => ¬ p.2 < 0)).filter (fun q => q.2 ∉ mapKeys m) := by
          rw [hfc, List.filter_cons, if_pos (by simp [hmem])]
        rw [hfc2]
        have hfilt : (res.filter (fun p => ¬ p.2 < 0)).filter
              (fun q => q.2 ∉ mapKeys m ++ [p.2])
            = (res.filter (fun p => ¬ p.2 < 0)).filter (fun q => q.2 ∉ mapKeys m) := by
          apply List.filter_congr
          intro q hq
          have hqv : q.2 ∈ validIdxs res := List.mem_map_of_mem (·.2) hq
          have hqp : ¬ (q.2 = p.2) := fun h => hnd.1 (h ▸ hqv)
          simp [hqp]
        rw [hfilt]
        have hmap2 : ∀ e ∈ m,
            (if e.1 ∈ validIdxs res then (e.1, e.2.1, retrievedScore res e.1) else e)
              = (if e.1 ∈ validIdxs (p :: res)
                 then (e.1, e.2.1, retrievedScore (p :: res) e.1) else e) := by
          intro e he
          have hep : ¬ (e.1 = p.2) := fun h => hmem (h ▸ List.mem_map_of_mem (·.1) he)
          have hiff : e.1 ∈ validIdxs (p :: res) ↔ e.1 ∈ validIdxs res := by
            rw [validIdxs_cons, if_neg hneg, List.mem_cons]
            exact ⟨fun h => h.resolve_left hep, Or.inr⟩
          by_cases hev : e.1 ∈ validIdxs res
          · rw [if_pos hev, if_pos (hiff.mpr hev),
              retrievedScore_cons_of_ne p res e.1 (fun h => hep h.symm)]
          · rw [if_neg hev, if_neg (fun h => hev (hiff.mp h))]
        rw [List.map_append, List.map_congr_left hmap2]
        have hsingle : List.map (fun e =>
            if e.1 ∈ validIdxs res then (e.1, e.2.1, retrievedScore res e.1) else e)
            [((p.2 : ℤ), ((0 : ℚ), (0 : ℚ)).1, p.1)]
            = [((p.2 : ℤ), (0 : ℚ), p.1)] := by
          simp only [List.map_cons, List.map_nil, if_neg (show (p.2 : ℤ) ∈ validIdxs res → False from hnd.1)]
        rw [hsingle, List.append_assoc, List.singleton_append, List.map_cons]

/-- The score map built by the two loops is the union of retrieved candidates
(sbert candidates first, then the remaining tfidf candidates) with, per
candidate, the raw score from each engine — `0` for an engine that did not
retrieve it. -/
theorem buildScoreMap_eq (sres tres : List (ℚ × ℤ))
    (hs : (validIdxs sres).Nodup) (ht : (validIdxs tres).Nodup) :
    buildScoreMap sres tres
      = (unionIdxs sres tres).map
          (fun i => (i, retrievedScore sres i, retrievedScore tres i)) := by
  rw [buildScoreMap,
    insertSbertResults_eq sres [] hs (by intro i _; simp [mapKeys]),
    List.nil_append]
  have hkeys : mapKeys ((sres.filter (fun p => ¬ p.2 < 0)).map
      (fun p => ((p.2 : ℤ), (p.1 : ℚ), (0 : ℚ)))) = validIdxs sres := by
    rw [mapKeys, List.map_map, validIdxs]
    rfl
  rw [insertTfidfResults_eq tres _ ht (by rw [hkeys]; exact hs), hkeys,
    unionIdxs, List.map_append]
  congr 1
  · conv_rhs => rw [validIdxs, List.map_map]
    rw [List.map_map]
    apply List.map_congr_left
    intro p hp
    have hpv : ¬ p.2 < 0 := by simpa using (List.mem_filter.mp hp).2
    have hp1 : retrievedScore sres p.2 = p.1 :=
      retrievedScore_eq_of_mem sres p hs (List.mem_filter.mp hp).1 hpv
    show (if p.2 ∈ validIdxs tres
          then ((p.2 : ℤ), (p.1 : ℚ), retrievedScore tres p.2)
          else ((p.2 : ℤ), (p.1 : ℚ), (0 : ℚ)))
        = (p.2, retrievedScore sres p.2, retrievedScore tres p.2)
    by_cases hmem : p.2 ∈ validIdxs tres
    · rw [if_pos hmem, hp1]
    · rw [if_neg hmem, hp1, retrievedScore_eq_zero tres p.2 hpv hmem]
  · have hvt : validIdxs tres
        = (tres.filter (fun p => ¬ p.2 < 0)).map (fun x => x.2) := rfl
    conv_rhs => rw [hvt, List.filter_map, List.map_map]
    have hpred : ((fun i => decide (i ∉ validIdxs sres)) ∘ (fun p : ℚ × ℤ => p.2))
        = (fun p : ℚ × ℤ => decide (p.2 ∉ validIdxs sres)) := rfl
    rw [hpred]
    apply List.map_congr_left
    intro p hp
    have hp2 := List.mem_filter.mp hp
    have hpv : ¬ p.2 < 0 := by simpa using (List.mem_filter.mp hp2.1).2
    have hps : p.2 ∉ validIdxs sres := by simpa using hp2.2
    show ((p.2 : ℤ), (0 : ℚ), (p.1 : ℚ))
        = (p.2, retrievedScore sres p.2, retrievedScore tres p.2)
    rw [retrievedScore_eq_zero sres p.2 hpv hps,
      retrievedScore_eq_of_mem tres p ht (List.mem_filter.mp hp2.1).1 hpv]

theorem normalizeScores_length (values : List ℚ) :
    (normalizeScores values).length = values.length := by
  match values with
  | [] => rfl
  | v :: vs =>
    by_cases h : listMax (v :: vs) = listMin (v :: vs)
    · simp [normalizeScores, if_pos h]
    · simp [normalizeScores, if_neg h]

theorem getElem?_zip_pair {α β : Type} (as : List α) (bs : List β) (i : ℕ) :
    (as.zip bs)[i]? = match as[i]?, bs[i]? with
      | some a, some b => some (a, b)
      | _, _ => none := by
  rw [List.zip_eq_zipWith, List.getElem?_zipWith]
  cases as[i]? <;> cases bs[i]? <;> rfl

/-- C1: in the hybrid engine each candidate's combined score is
`effective_weight × normalized sbert + (1 − effective_weight) × normalized
tfidf`, where each engine's slot is min-max normalized across the union of
retrieved candidates, a candidate retrieved by only one engine carries raw
score 0 in the other engine's slot, and the effective weight is the
arithmetic mean of the caller-supplied hybrid weight (default constant
`DEFAULT_HYBRID_NLP_WEIGHT = 0.7`) and the adaptive blend factor `alpha`.
The hypotheses say each retrieval returns no duplicate row index, which a
faiss search guarantees. -/
theorem C1_hybrid_combined_score (weight alpha : ℚ) (sres tres : List (ℚ × ℤ))
    (hs : (validIdxs sres).Nodup) (ht : (validIdxs tres).Nodup) :
    DEFAULT_HYBRID_NLP_WEIGHT = 7/10
    ∧ (hybridCombined weight alpha sres tres).map (fun e => e.idx)
        = unionIdxs sres tres
    ∧ ∀ e ∈ hybridCombined weight alpha sres tres,
        e.effectiveWeight = (weight + alpha) / 2
        ∧ e.rawSbert = retrievedScore sres e.idx
        ∧ e.rawTfidf = retrievedScore tres e.idx
        ∧ e.score
            = ((weight + alpha) / 2)
                * minmaxNorm ((unionIdxs sres tres).map (retrievedScore sres))
                    (retrievedScore sres e.idx)
              + (1 - (weight + alpha) / 2)
                * minmaxNorm ((unionIdxs sres tres).map (retrievedScore tres))
                    (retrievedScore tres e.idx) := by
  have hM : buildScoreMap sres tres
      = (unionIdxs sres tres).map
          (fun i => (i, retrievedScore sres i, retrievedScore tres i)) :=
    buildScoreMap_eq sres tres hs ht
  have hSvals : (buildScoreMap sres tres).map (fun e => e.2.1)
      = (unionIdxs sres tres).map (retrievedScore sres) := by
    rw [hM, List.map_map]; rfl
  have hTvals : (buildScoreMap sres tres).map (fun e => e.2.2)
      = (unionIdxs sres tres).map (retrievedScore tres) := by
    rw [hM, List.map_map]; rfl
  have hlen_sN : (normalizeScores ((buildScoreMap sres tres).map (fun e => e.2.1))).length
      = (buildScoreMap sres tres).length := by
    rw [normalizeScores_length, List.length_map]
  have hlen_tN : (normalizeScores ((buildScoreMap sres tres).map (fun e => e.2.2))).length
      = (buildScoreMap sres tres).length := by
    rw [normalizeScores_length, List.length_map]
  refine ⟨rfl, ?_, ?_⟩
  · rw [hybridCombined, List.map_map]
    have hzlen : (buildScoreMap sres tres).length
        ≤ ((normalizeScores ((buildScoreMap sres tres).map (fun e => e.2.1))).zip
            (normalizeScores ((buildScoreMap sres tres).map (fun e => e.2.2)))).length := by
      rw [List.zip_eq_zipWith, List.length_zipWith, hlen_sN, hlen_tN]
      exact le_of_eq (min_self _).symm
    have hcomp : ∀ tup ∈ (buildScoreMap sres tres).zip
        ((normalizeScores ((buildScoreMap sres tres).map (fun e => e.2.1))).zip
          (normalizeScores ((buildScoreMap sres tres).map (fun e => e.2.2)))),
        ((fun (e : HybridEntry) => e.idx) ∘ (fun e =>
          ({ score := ((weight + alpha) / 2) * e.2.1
                        + (1 - (weight + alpha) / 2) * e.2.2
             idx := e.1.1
             rawSbert := e.1.2.1
             rawTfidf := e.1.2.2
             sNorm := e.2.1
             tNorm := e.2.2
             effectiveWeight := (weight + alpha) / 2 } : HybridEntry))) tup
          = (Prod.fst tup).1 := fun _ _ => rfl
    rw [List.map_congr_left hcomp]
    have : (fun (tup : (ℤ × ℚ × ℚ) × ℚ × ℚ) => (Prod.fst tup).1)
        = ((fun (a : ℤ × ℚ × ℚ) => a.1) ∘ Prod.fst) := rfl
    rw [this, ← List.map_map, List.map_fst_zip _ _ hzlen, hM, List.map_map]
    exact List.map_id' _
  · intro e he
    rw [hybridCombined, List.mem_map] at he
    obtain ⟨tup, htup, rfl⟩ := he
    rw [List.mem_iff_getElem?] at htup
    obtain ⟨j, hj⟩ := htup
    rw [getElem?_zip_pair] at hj
    cases hS : (buildScoreMap sres tres)[j]? with
    | none => rw [hS] at hj; cases hj
    | some a =>
      cases hP : ((normalizeScores ((buildScoreMap sres tres).map (fun e => e.2.1))).zip
          (normalizeScores ((buildScoreMap sres tres).map (fun e => e.2.2))))[j]? with
      | none => rw [hS, hP] at hj; cases hj
      | some p =>
        rw [hS, hP] at hj
        obtain rfl : (a, p) = tup := Option.some.inj hj
        rw [getElem?_zip_pair] at hP
        cases hsn : (normalizeScores ((buildScoreMap sres tres).map (fun e => e.2.1)))[j]? with
        | none => rw [hsn] at hP; cases hP
        | some sn =>
          cases htn : (normalizeScores ((buildScoreMap sres tres).map (fun e => e.2.2)))[j]? with
          | none => rw [hsn, htn] at hP; cases hP
          | some tn =>
            rw [hsn, htn] at hP
            obtain rfl : (sn, tn) = p := Option.some.inj hP
            have hSU := hS
            rw [hM, List.getElem?_map] at hSU
            cases hU : (unionIdxs sres tres)[j]? with
            | none => rw [hU] at hSU; cases hSU
            | some i =>
              rw [hU, Option.map_some'] at hSU
              obtain rfl : (i, retrievedScore sres i, retrievedScore tres i) = a :=
                Option.some.inj hSU
              rw [normalizeScores_getElem, List.getElem?_map, hS,
                Option.map_some', Option.map_some'] at hsn
              obtain rfl : minmaxNorm ((buildScoreMap sres tres).map (fun e => e.2.1))
                  (retrievedScore sres i) = sn := Option.some.inj hsn
              rw [normalizeScores_getElem, List.getElem?_map, hS,
                Option.map_some', Option.map_some'] at htn
              obtain rfl : minmaxNorm ((buildScoreMap sres tres).map (fun e => e.2.2))
                  (retrievedScore tres i) = tn := Option.some.inj htn
              refine ⟨rfl, rfl, rfl, ?_⟩
              rw [← hSvals, ← hTvals]

/-- Witness for C1 on concrete retrievals: the sbert engine retrieved rows 0
and 1, the tfidf engine rows 1 and 2. -/
theorem C1_hybrid_combined_score_witness :
    (validIdxs [((1 : ℚ), (0 : ℤ)), (1/2, 1)]).Nodup
    ∧ (validIdxs [((3/4 : ℚ), (1 : ℤ)), (1/4, 2)]).Nodup
    ∧ (hybridCombined (7/10) (55/100)
          [((1 : ℚ), (0 : ℤ)), (1/2, 1)] [((3/4 : ℚ), (1 : ℤ)), (1/4, 2)]).map
        (fun e => e.idx)
        = unionIdxs [((1 : ℚ), (0 : ℤ)), (1/2, 1)] [((3/4 : ℚ), (1 : ℤ)), (1/4, 2)] :=
  ⟨by decide, by decide,
   (C1_hybrid_combined_score (7/10) (55/100)
      [((1 : ℚ), (0 : ℤ)), (1/2, 1)] [((3/4 : ℚ), (1 : ℤ)), (1/4, 2)]
      (by decide) (by decide)).2.1⟩

theorem forall_mem_zipWith {α β γ : Type} {p : γ → Prop} (f : α → β → γ)
    (a : List α) (b : List β) (h : ∀ x ∈ a, ∀ y ∈ b, p (f x y)) :
    ∀ v ∈ List.zipWith f a b, p v := by
  induction a generalizing b with
  | nil => intro v hv; simp at hv
  | cons x xs ih =>
    cases b with
    | nil => intro v hv; simp at hv
    | cons y ys =>
      intro v hv
      rw [List.zipWith_cons_cons] at hv
      rcases List.mem_cons.mp hv with rfl | hv'
      · exact h x (by simp) y (by simp)
      · exact ih ys (fun u hu w hw => h u (by simp [hu]) w (by simp [hw])) v hv'

theorem sumSq_eq_zero (v : Vec) (h : ∀ x ∈ v, x = 0) : sumSq v = 0 := by
  induction v with
  | nil => rfl
  | cons x xs ih =>
    have hx : x = 0 := h x (by simp)
    have hxs : sumSq xs = 0 := ih (fun y hy => h y (by simp [hy]))
    simp [sumSq] at hxs ⊢
    simp [hx, hxs]

theorem getElem?_zipWith_some {α β γ : Type} (f : α → β → γ) (a : List α)
    (b : List β) (i : ℕ) (x : α) (y : β) (hx : a[i]? = some x)
    (hy : b[i]? = some y) : (List.zipWith f a b)[i]? = some (f x y) := by
  rw [List.getElem?_zipWith, hx, hy]

theorem combineStep_emptyDoc (data : FieldData) (n i : ℕ) (f : Str)
    (hi : i < n)
    (hshape : ∀ emb, data.embeddings f = some emb → emb.length = n)
    (htexts : (data.texts f).length = n)
    (hempty : ∀ t, (data.texts f)[i]? = some t → pyStrip t = [])
    (acc : Option (Mat × List ℚ)) (hacc : EmptyDocAcc n i acc) :
    EmptyDocAcc n i (combineStep data acc f) := by
  intro total wsums hres
  rw [combineStep] at hres
  cases hemb : data.embeddings f with
  | none => rw [hemb] at hres; exact hacc _ _ hres
  | some emb =>
    rw [hemb] at hres
    dsimp only at hres
    by_cases hw : data.weights f ≤ 0
    · rw [if_pos hw] at hres
      exact hacc _ _ hres
    · rw [if_neg hw] at hres
      have hlemb : emb.length = n := hshape emb hemb
      obtain ⟨t, hti⟩ : ∃ t, (data.texts f)[i]? = some t :=
        ⟨_, List.getElem?_eq_getElem (htexts ▸ hi)⟩
      have hmaski : (maskOf (data.texts f))[i]? = some 0 := by
        rw [maskOf, List.getElem?_map, hti, Option.map_some', if_pos (hempty t hti)]
      have hwsi : ((maskOf (data.texts f)).map (fun m => data.weights f * m))[i]?
          = some 0 := by
        rw [List.getElem?_map, hmaski, Option.map_some', mul_zero]
      have hwslen :
          ((maskOf (data.texts f)).map (fun m => data.weights f * m)).length = n := by
        rw [List.length_map, maskOf, List.length_map, htexts]
      obtain ⟨erow, hei⟩ : ∃ r, emb[i]? = some r :=
        ⟨_, List.getElem?_eq_getElem (hlemb ▸ hi)⟩
      have hweightedi : (scaleRows
          ((maskOf (data.texts f)).map (fun m => data.weights f * m)) emb)[i]?
          = some (erow.map (fun x => (0 : ℚ) * x)) := by
        rw [scaleRows]
        exact getElem?_zipWith_some _ _ _ i 0 erow hwsi hei
      have hweightedlen : (scaleRows
          ((maskOf (data.texts f)).map (fun m => data.weights f * m)) emb).length
          = n := by
        rw [scaleRows, List.length_zipWith, hwslen, hlemb, min_self]
      cases acc with
      | none =>
        obtain ⟨h1, h2⟩ := Prod.mk.injEq .. ▸ Option.some.inj hres
        subst h1
        subst h2
        refine ⟨hweightedlen, hwslen, hwsi, ?_⟩
        intro row hrow
        rw [hweightedi] at hrow
        obtain rfl := Option.some.inj hrow
        intro v hv
        obtain ⟨x, _, rfl⟩ := List.mem_map.mp hv
        exact zero_mul x
      | some pair =>
        obtain ⟨ptotal, pwsums⟩ := pair
        obtain ⟨hp1, hp2, hp3, hp4⟩ := hacc ptotal pwsums rfl
        obtain ⟨h1, h2⟩ := Prod.mk.injEq .. ▸ Option.some.inj hres
        subst h1
        subst h2
        obtain ⟨prow, hpi⟩ : ∃ r, ptotal[i]? = some r :=
          ⟨_, List.getElem?_eq_getElem (hp1 ▸ hi)⟩
        refine ⟨?_, ?_, ?_, ?_⟩
        · rw [addMat, List.length_zipWith, hp1, hweightedlen, min_self]
        · rw [List.length_zipWith, hp2, hwslen, min_self]
        · rw [getElem?_zipWith_some _ _ _ i 0 0 hp3 hwsi, zero_add]
        · intro row hrow
          rw [addMat,
            getElem?_zipWith_some _ _ _ i prow (erow.map (fun x => (0 : ℚ) * x))
              hpi hweightedi] at hrow
          obtain rfl := Option.some.inj hrow
          refine forall_mem_zipWith _ _ _ ?_
          intro x hx y hy
          rw [hp4 prow hpi x hx]
          obtain ⟨z, _, rfl⟩ := List.mem_map.mp hy
          rw [zero_mul, add_zero]

theorem foldl_combineStep_emptyDoc (data : FieldData) (n i : ℕ) (hi : i < n)
    (l : List Str)
    (hshape : ∀ f ∈ l, ∀ emb, data.embeddings f = some emb → emb.length = n)
    (htexts : ∀ f ∈ l, (data.texts f).length = n)
    (hempty : ∀ f ∈ l, ∀ t, (data.texts f)[i]? = some t → pyStrip t = [])
    (acc : Option (Mat × List ℚ)) (hacc : EmptyDocAcc n i acc) :
    EmptyDocAcc n i (l.foldl (combineStep data) acc) := by
  induction l generalizing acc with
  | nil => exact hacc
  | cons f fs ih =>
    rw [List.foldl_cons]
    exact ih (fun g hg => hshape g (List.mem_cons_of_mem _ hg))
      (fun g hg => htexts g (List.mem_cons_of_mem _ hg))
      (fun g hg => hempty g (List.mem_cons_of_mem _ hg))
      _
      (combineStep_emptyDoc data n i f hi (hshape f (List.mem_cons_self _ _))
        (htexts f (List.mem_cons_self _ _)) (hempty f (List.mem_cons_self _ _))
        acc hacc)

theorem combineStep_isSome_mono (data : FieldData) (acc : Option (Mat × List ℚ))
    (f : Str) (h : acc.isSome) : (combineStep data acc f).isSome := by
  rw [combineStep]
  cases data.embeddings f with
  | none => exact h
  | some emb =>
    dsimp only
    by_cases hw : data.weights f ≤ 0
    · rw [if_pos hw]; exact h
    · rw [if_neg hw]
      cases acc with
      | none => rfl
      | some pair => obtain ⟨a, b⟩ := pair; rfl

theorem combineStep_isSome_of_usable (data : FieldData)
    (acc : Option (Mat × List ℚ)) (f : Str)
    (hemb : (data.embeddings f).isSome) (hw : 0 < data.weights f) :
    (combineStep data acc f).isSome := by
  rw [combineStep]
  obtain ⟨emb, hembe⟩ := Option.isSome_iff_exists.mp hemb
  rw [hembe]
  dsimp only
  rw [if_neg (not_le.mpr hw)]
  cases acc with
  | none => rfl
  | some pair => obtain ⟨a, b⟩ := pair; rfl

theorem foldl_combineStep_isSome (data : FieldData) (l : List Str)
    (acc : Option (Mat × List ℚ))
    (h : acc.isSome ∨ ∃ f ∈ l, (data.embeddings f).isSome ∧ 0 < data.weights f) :
    (l.foldl (combineStep data) acc).isSome := by
  induction l generalizing acc with
  | nil =>
    rcases h with h | ⟨f, hf, _⟩
    · exact h
    · cases hf
  | cons f fs ih =>
    rw [List.foldl_cons]
    rcases h with h | ⟨g, hg, hgu⟩
    · exact ih _ (Or.inl (combineStep_isSome_mono data acc f h))
    · rcases List.mem_cons.mp hg with rfl | hg'
      · exact ih _ (Or.inl (combineStep_isSome_of_usable data acc g hgu.1 hgu.2))
      · exact ih _ (Or.inr ⟨g, hg', hgu⟩)

/-- C2 (amended): for a document all of whose field texts are empty — the
fusion denominator degenerates — `_combine_field_embeddings` still returns a
row for that document, namely an all-zero vector (the guards
`weight_sums[weight_sums == 0] = 1.0` and `norms[norms == 0] = 1.0` make
every division a division by 1, so no NaN arises); the result is `None` only
when no field at all contributes an embedding with positive weight. -/
theorem C2_empty_document_zero_vector (sqrt : ℚ → ℚ) (data : FieldData)
    (n i : ℕ) (hsqrt : sqrt 0 = 0) (hi : i < n)
    (hshape : ∀ f ∈ FIELD_NAMES, ∀ emb, data.embeddings f = some emb → emb.length = n)
    (htexts : ∀ f ∈ FIELD_NAMES, (data.texts f).length = n)
    (hempty : ∀ f ∈ FIELD_NAMES, ∀ t, (data.texts f)[i]? = some t → pyStrip t = [])
    (hused : ∃ f ∈ FIELD_NAMES, (data.embeddings f).isSome ∧ 0 < data.weights f) :
    ∃ m row, combineFieldEmbeddings sqrt data = some m
      ∧ m.length = n ∧ m[i]? = some row ∧ ∀ x ∈ row, x = 0 := by
  have hsome := foldl_combineStep_isSome data FIELD_NAMES none (Or.inr hused)
  obtain ⟨pair, heq⟩ := Option.isSome_iff_exists.mp hsome
  obtain ⟨total, wsums⟩ := pair
  obtain ⟨hlt, hlw, hwi, hrows⟩ :=
    foldl_combineStep_emptyDoc data n i hi FIELD_NAMES hshape htexts hempty none
      (fun _ _ h => absurd h (by simp)) total wsums heq
  rw [combineFieldEmbeddings, heq]
  have hguardi : (wsums.map (fun w => if w = 0 then 1 else w))[i]? = some 1 := by
    rw [List.getElem?_map, hwi, Option.map_some', if_pos rfl]
  obtain ⟨trow, hti⟩ : ∃ r, total[i]? = some r :=
    ⟨_, List.getElem?_eq_getElem (hlt ▸ hi)⟩
  have hzrow : ∀ v ∈ trow, v = 0 := hrows trow hti
  have hdivi : (List.zipWith (fun row w => row.map (fun x => x / w)) total
      (wsums.map (fun w => if w = 0 then 1 else w)))[i]?
      = some (trow.map (fun x => x / 1)) :=
    getElem?_zipWith_some _ _ _ i trow 1 hti hguardi
  have hdivzero : ∀ v ∈ trow.map (fun x => x / 1), v = 0 := by
    intro v hv
    obtain ⟨x, hx, rfl⟩ := List.mem_map.mp hv
    rw [hzrow x hx, zero_div]
  have hsq : sumSq (trow.map (fun x => x / 1)) = 0 := sumSq_eq_zero _ hdivzero
  refine ⟨_, (trow.map (fun x => x / 1)).map (fun x => x / 1), rfl, ?_, ?_, ?_⟩
  · rw [normalizeRows, List.length_map, List.length_zipWith, hlt,
      List.length_map, hlw, min_self]
  · rw [normalizeRows, List.getElem?_map, hdivi, Option.map_some', hsq, hsqrt,
      if_pos rfl]
  · intro x hx
    obtain ⟨y, hy, rfl⟩ := List.mem_map.mp hx
    rw [hdivzero y hy, zero_div]

/-- C2 counterexample: on a document with no usable field (every field text
empty), `_combine_field_embeddings` does not return an empty/undefined result
for the document — it returns a matrix that has a row for it, the zero
vector. -/
theorem C2_counterexample_returns_zero_row :
    combineFieldEmbeddings zeroOneSqrt c2Data = some [[0, 0]]
    ∧ combineFieldEmbeddings zeroOneSqrt c2Data ≠ none := by
  have h : combineFieldEmbeddings zeroOneSqrt c2Data = some [[0, 0]] := by
    norm_num [combineFieldEmbeddings, FIELD_NAMES, combineStep, c2Data, maskOf,
      scaleRows, addMat, normalizeRows, sumSq, zeroOneSqrt, defaultFieldWeight,
      pyStrip, str, List.foldl]
  exact ⟨h, by rw [h]; exact Option.some_ne_none _⟩

/-- Witness for the amended C2 on the concrete all-empty one-document input. -/
theorem C2_empty_document_zero_vector_witness :
    zeroOneSqrt 0 = 0
    ∧ ∃ m row, combineFieldEmbeddings zeroOneSqrt c2Data = some m
        ∧ m.length = 1 ∧ m[0]? = some row ∧ ∀ x ∈ row, x = 0 :=
  ⟨rfl,
   C2_empty_document_zero_vector zeroOneSqrt c2Data 1 0 rfl Nat.zero_lt_one
     (fun _ _ emb h => by cases Option.some.inj h; rfl)
     (fun _ _ => rfl)
     (fun _ _ t h => by cases Option.some.inj h; rfl)
     ⟨str "name", by decide, rfl, by
        rw [show c2Data.weights (str "name") = defaultFieldWeight (str "name")
              from rfl,
          defaultFieldWeight, if_pos rfl]
        norm_num⟩⟩

/-- C8: an explicit `engine=sbert` or `engine=hybrid` request fails with 503
(service unavailable, an error result rather than a crash or an empty-result
success) whenever the embedding model or a required index is missing, while
`engine=auto` under the same dense unavailability silently resolves to the
tfidf engine and yields 503 only when neither engine is usable. -/
theorem C8_unavailability_and_auto_fallback (env : SearchEnv) (q : Str) (k : ℕ)
    (tagsParam ownerParam sourceParam : Option Str) (ri : Option Bool)
    (overrideW : Str → Option ℚ) :
    ((env.modelLoaded = false ∨ env.sbertIndexLoaded = false) →
      searchCore env q k (str "sbert") none tagsParam ownerParam sourceParam ri
        overrideW = .error 503)
    ∧ ((env.modelLoaded = false ∨ env.sbertIndexLoaded = false
          ∨ env.tfidfIndexLoaded = false) →
      searchCore env q k (str "hybrid") none tagsParam ownerParam sourceParam ri
        overrideW = .error 503)
    ∧ (∀ ml si ti : Bool, (ml = false ∨ si = false) → ti = true →
        resolveUse ml si ti (str "auto") = .ok Use.tfidf)
    ∧ (∀ ml si ti : Bool,
        resolveUse ml si ti (str "auto") = .error 503
          ↔ ((ml = false ∨ si = false) ∧ ti = false)) := by
  refine ⟨?_, ?_, ?_, ?_⟩
  · intro h
    rw [searchCore]
    by_cases h1 : env.metas = []
        ∨ (env.sbertIndexLoaded = false ∧ env.tfidfIndexLoaded = false)
    · rw [if_pos h1]
    · rw [if_neg h1,
        show pyLower (if str "sbert" = ([] : Str) then str "auto" else str "sbert")
          = str "sbert" from by decide,
        show allowedEngine (str "sbert") = true from by decide,
        if_neg (by simp), if_neg (by norm_num [Option.getD, DEFAULT_HYBRID_NLP_WEIGHT]),
        resolveUse, if_neg (by decide), if_pos rfl, if_pos (by
          rcases h with h | h <;> simp [h])]
  · intro h
    rw [searchCore]
    by_cases h1 : env.metas = []
        ∨ (env.sbertIndexLoaded = false ∧ env.tfidfIndexLoaded = false)
    · rw [if_pos h1]
    · rw [if_neg h1,
        show pyLower (if str "hybrid" = ([] : Str) then str "auto" else str "hybrid")
          = str "hybrid" from by decide,
        show allowedEngine (str "hybrid") = true from by decide,
        if_neg (by simp), if_neg (by norm_num [Option.getD, DEFAULT_HYBRID_NLP_WEIGHT]),
        resolveUse, if_neg (by decide), if_neg (by decide), if_neg (by decide),
        if_pos (by rcases h with h | h | h <;> simp [h])]
  · intro ml si ti h hti
    rw [resolveUse, if_pos rfl, if_neg (by
      rcases h with h | h <;> subst h <;> simp), if_pos (by simp [hti])]
  · intro ml si ti
    cases ml <;> cases si <;> cases ti <;> simp [resolveUse]

/-- Witness for C8: with the model unavailable, an explicit sbert request
503s while auto falls back to tfidf. -/
theorem C8_unavailability_and_auto_fallback_witness :
    searchCore envNoModel (str "demo") 5 (str "sbert") none none none none none
        (fun _ => none) = .error 503
    ∧ resolveUse false true true (str "auto") = .ok Use.tfidf :=
  ⟨(C8_unavailability_and_auto_fallback envNoModel (str "demo") 5 none none none
      none (fun _ => none)).1 (Or.inl rfl),
   (C8_unavailability_and_auto_fallback envNoModel (str "demo") 5 none none none
      none (fun _ => none)).2.2.1 false true true (Or.inl rfl) rfl⟩

theorem buildRow_satisfies (env : SearchEnv) (use : Use) (q : Str)
    (nfw : List (Str × ℚ)) (se te : Option Vec)
    (tagsParam ownerParam sourceParam : Option Str) (ri : Option Bool)
    (hyi : Option (List (ℤ × ℚ × ℚ))) (p : ℚ × ℤ) (row : ResultRow)
    (h : buildRow env use q nfw se te tagsParam ownerParam sourceParam ri hyi p
          = some row) :
    SatisfiesFilters tagsParam ownerParam sourceParam ri row := by
  rw [buildRow] at h
  by_cases h1 : p.2 < 0 ∨ env.metas.length ≤ p.2.toNat
  · rw [if_pos h1] at h; cases h
  · rw [if_neg h1] at h
    cases hm : env.metas[p.2.toNat]? with
    | none => rw [hm] at h; cases h
    | some m =>
      rw [hm] at h
      dsimp only at h
      by_cases h2 : (filtersActive tagsParam ownerParam sourceParam ri = true)
          ∧ applyMetadataFilters [m] (tagsArg tagsParam) ownerParam sourceParam ri
              = []
      · rw [if_pos h2] at h; cases h
      · rw [if_neg h2] at h
        obtain rfl := Option.some.inj h
        cases hact : filtersActive tagsParam ownerParam sourceParam ri with
        | false =>
          rw [filtersActive, decide_eq_false_iff_not] at hact
          push_neg at hact
          obtain ⟨hta, how, hsrc, hri⟩ := hact
          refine ⟨?_, ?_, ?_, ?_⟩
          · intro t ht
            exfalso
            rcases hta with hx | hx <;> rw [hx] at ht <;>
              simp [tagsArg, tagSetOf] at ht
          · intro o ho
            exfalso
            rcases how with hx | hx <;> rw [hx] at ho <;> simp [normActive] at ho
          · intro s hs
            exfalso
            rcases hsrc with hx | hx <;> rw [hx] at hs <;> simp [normActive] at hs
          · intro b hb
            rw [hri] at hb
            cases hb
        | true =>
          have happ : applyMetadataFilters [m] (tagsArg tagsParam) ownerParam
              sourceParam ri ≠ [] := fun he => h2 ⟨hact, he⟩
          by_cases hC : (tagsArg tagsParam = none ∨ tagsArg tagsParam = some [])
              ∧ (ownerParam = none ∨ ownerParam = some [])
              ∧ (sourceParam = none ∨ sourceParam = some []) ∧ ri = none
          · obtain ⟨hta, how, hsrc, hri⟩ := hC
            refine ⟨?_, ?_, ?_, ?_⟩
            · intro t ht
              exfalso
              rcases hta with hx | hx <;> rw [hx] at ht <;> simp [tagSetOf] at ht
            · intro o ho
              exfalso
              rcases how with hx | hx <;> rw [hx] at ho <;> simp [normActive] at ho
            · intro s hs
              exfalso
              rcases hsrc with hx | hx <;> rw [hx] at hs <;> simp [normActive] at hs
            · intro b hb
              rw [hri] at hb
              cases hb
          · rw [applyMetadataFilters, if_neg hC] at happ
            have hpass : rowPasses (tagSetOf (tagsArg tagsParam))
                (normActive ownerParam) (normActive sourceParam) ri m = true := by
              by_contra hno
              apply happ
              rw [List.filter_cons, if_neg (by simpa using hno), List.filter_nil]
            unfold rowPasses at hpass
            simp only [Bool.and_eq_true] at hpass
            obtain ⟨⟨⟨hp1, hp2⟩, hp3⟩, hp4⟩ := hpass
            refine ⟨?_, ?_, ?_, ?_⟩
            · intro t ht
              show t ∈ m.tags.map (fun u => pyLower (pyStrip u))
              rcases Bool.or_eq_true _ _ |>.mp hp1 with hx | hx
              · exfalso
                rw [List.isEmpty_iff] at hx
                rw [hx] at ht
                cases ht
              · rw [List.all_eq_true] at hx
                have := hx t ht
                simpa using this
            · intro o ho
              rw [ho] at hp2
              show pyLower (pyStrip m.owner) = o
              simpa using hp2
            · intro s hs
              rw [hs] at hp3
              show pyLower (pyStrip m.source) = s
              simpa using hp3
            · intro b hb
              rw [hb] at hp4
              show m.requiresInternet = b
              simpa using hp4

theorem hybridTop_ok_length (env : SearchEnv) (q : Str) (k : ℕ) (w : ℚ)
    (tagsParam ownerParam sourceParam : Option Str) (ri : Option Bool)
    (top : List HybridEntry)
    (h : hybridTop env q k w tagsParam ownerParam sourceParam ri = .ok top) :
    top.length ≤ k := by
  rw [hybridTop] at h
  split at h
  · cases h
  · obtain rfl := Except.ok.inj h
    rw [List.length_take]
    exact min_le_left _ _

/-- Both terminal branches of `search` assemble their results by filtering
candidate pairs through `buildRow` and re-sorting; in the hybrid branch the
candidate pairs were already truncated to `k`. -/
theorem searchCore_ok_results (env : SearchEnv) (q : Str) (k : ℕ)
    (engineParam : Str) (w : Option ℚ)
    (tagsParam ownerParam sourceParam : Option Str) (ri : Option Bool)
    (overrideW : Str → Option ℚ) (out : SearchOutput)
    (h : searchCore env q k engineParam w tagsParam ownerParam sourceParam ri
          overrideW = .ok out) :
    ∃ use pairs hyi se tfe,
      out.results = sortRowsDesc (pairs.filterMap
        (buildRow env use q (normalizeFieldWeightsSvc env.metaFieldWeights overrideW)
          se tfe tagsParam ownerParam sourceParam ri hyi))
      ∧ (use = Use.hybrid → List.length pairs ≤ k)
      ∧ out.engineUsed = use
      ∧ (use = Use.sbert →
          pairs = env.sbertSearch (min env.metas.length (max k (k * 3))))
      ∧ (use = Use.tfidf →
          pairs = env.tfidfSearch (min env.metas.length (max k (k * 3))))
      ∧ (use = Use.hybrid →
          ∃ top, hybridTop env q k (w.getD DEFAULT_HYBRID_NLP_WEIGHT)
              tagsParam ownerParam sourceParam ri = .ok top
            ∧ pairs = top.map (fun e => (e.score, e.idx))) := by
  rw [searchCore] at h
  by_cases g1 : env.metas = []
      ∨ (env.sbertIndexLoaded = false ∧ env.tfidfIndexLoaded = false)
  · rw [if_pos g1] at h; cases h
  · rw [if_neg g1] at h
    by_cases g2 : allowedEngine
        (pyLower (if engineParam = [] then str "auto" else engineParam)) = false
    · rw [if_pos g2] at h; cases h
    · rw [if_neg g2] at h
      by_cases g3 : w.getD DEFAULT_HYBRID_NLP_WEIGHT < 0
          ∨ 1 < w.getD DEFAULT_HYBRID_NLP_WEIGHT
      · rw [if_pos g3] at h; cases h
      · rw [if_neg g3] at h
        cases hres : resolveUse env.modelLoaded env.sbertIndexLoaded
            env.tfidfIndexLoaded
            (pyLower (if engineParam = [] then str "auto" else engineParam)) with
        | error c => rw [hres] at h; cases h
        | ok use =>
          rw [hres] at h
          dsimp only at h
          cases htf : (if use = Use.tfidf ∨ use = Use.hybrid then
              match env.vtrans with
              | none => Except.error 503
              | some vt => Except.ok (some (l2normalize env.sqrt (vt q)))
            else Except.ok none : Except ℕ (Option Vec)) with
          | error c => rw [htf] at h; cases h
          | ok tfe =>
            rw [htf] at h
            dsimp only at h
            by_cases huse : use = Use.hybrid
            · rw [if_pos huse] at h
              cases htop : hybridTop env q k (w.getD DEFAULT_HYBRID_NLP_WEIGHT)
                  tagsParam ownerParam sourceParam ri with
              | error c => rw [htop] at h; cases h
              | ok top =>
                rw [htop] at h
                dsimp only at h
                obtain rfl := Except.ok.inj h
                refine ⟨use, top.map (fun e => (e.score, e.idx)), _, _, _, rfl,
                  ?_, rfl, ?_, ?_, ?_⟩
                · intro _
                  rw [List.length_map]
                  exact hybridTop_ok_length env q k _ tagsParam ownerParam
                    sourceParam ri top htop
                · intro hx
                  rw [hx] at huse
                  exact absurd huse (by decide)
                · intro hx
                  rw [hx] at huse
                  exact absurd huse (by decide)
                · intro _
                  exact ⟨top, rfl, rfl⟩
            · rw [if_neg huse] at h
              obtain rfl := Except.ok.inj h
              refine ⟨use, _, none, _, tfe, rfl, fun hx => absurd hx huse, rfl,
                ?_, ?_, fun hx => absurd hx huse⟩
              · intro hx
                rw [if_pos hx]
              · intro hx
                subst hx
                rw [if_neg (by decide)]

/-- Concrete run: one indexed document owned by `alice`, a query filtered to
`owner=bob`, `k = 1`; the lone retrieved candidate is dropped by the filter
and the response carries no results although an unfiltered candidate
existed. -/
theorem searchCore_envNoModel_filtered_run :
    searchCore envNoModel (str "demo") 1 (str "tfidf") none none
        (some (str "bob")) none none (fun _ => none)
      = .ok { engineUsed := Use.tfidf
              hybridWeight := none
              fieldWeights := normalizeFieldWeightsSvc envNoModel.metaFieldWeights
                (fun _ => none)
              results := [] } := by
  have hb : buildRow envNoModel Use.tfidf (str "demo")
      (normalizeFieldWeightsSvc envNoModel.metaFieldWeights (fun _ => none))
      none (some (l2normalize envNoModel.sqrt [0])) none (some (str "bob"))
      none none none ((1 : ℚ), (0 : ℤ)) = none := by
    rw [buildRow, if_neg (by decide),
      show envNoModel.metas[((0 : ℤ)).toNat]? = some demoMeta from rfl]
    dsimp only
    rw [if_pos ⟨by decide, by decide⟩]
  rw [searchCore, if_neg (by decide),
    show pyLower (if str "tfidf" = ([] : Str) then str "auto" else str "tfidf")
      = str "tfidf" from by decide,
    show allowedEngine (str "tfidf") = true from by decide,
    if_neg (by simp),
    if_neg (by norm_num [Option.getD, DEFAULT_HYBRID_NLP_WEIGHT]),
    show resolveUse envNoModel.modelLoaded envNoModel.sbertIndexLoaded
        envNoModel.tfidfIndexLoaded (str "tfidf") = .ok Use.tfidf from rfl]
  dsimp only
  rw [if_pos (Or.inl rfl),
    show envNoModel.vtrans = some (fun _ => [0]) from rfl]
  dsimp only
  rw [if_neg (by decide)]
  rw [show envNoModel.tfidfSearch (min envNoModel.metas.length (max 1 (1 * 3)))
      = [((1 : ℚ), (0 : ℤ))] from rfl]
  rw [show (if (Use.tfidf = Use.sbert ∨ Use.tfidf = Use.hybrid)
        ∧ envNoModel.modelLoaded = true then some envNoModel.sbertQueryEmb
      else none) = none from by rw [if_neg (by decide)]]
  rw [if_neg (show ¬ (Use.tfidf = Use.sbert) from by decide),
    List.filterMap_cons, hb, List.filterMap_nil, sortRowsDesc,
    List.mergeSort_nil]

/-- C9: no returned result violates any active metadata filter (tag-subset,
owner, source, internet-requirement), even when its fused score was
top-ranked; in the hybrid path filtering is applied before the truncation to
`k` (so the output never exceeds `k` rows there), and a filtered query may
return fewer than `k` rows even though unfiltered candidates existed, as the
concrete filtered query in the last conjunct shows. -/
theorem C9_metadata_filters_sound (env : SearchEnv) (q : Str) (k : ℕ)
    (engineParam : Str) (w : Option ℚ)
    (tagsParam ownerParam sourceParam : Option Str) (ri : Option Bool)
    (overrideW : Str → Option ℚ) (out : SearchOutput)
    (h : searchCore env q k engineParam w tagsParam ownerParam sourceParam ri
          overrideW = .ok out) :
    (∀ row ∈ out.results, SatisfiesFilters tagsParam ownerParam sourceParam ri row)
    ∧ (out.engineUsed = Use.hybrid → out.results.length ≤ k)
    ∧ (searchCore envNoModel (str "demo") 1 (str "tfidf") none none
          (some (str "bob")) none none (fun _ => none)).map
        (fun o => (o.results.length, (envNoModel.tfidfSearch 1).length))
        = .ok (0, 1) := by
  obtain ⟨use, pairs, hyi, se, tfe, hres, hlen, heng, _, _, _⟩ :=
    searchCore_ok_results env q k engineParam w tagsParam ownerParam sourceParam
      ri overrideW out h
  refine ⟨?_, ?_, ?_⟩
  · intro row hrow
    rw [hres, sortRowsDesc, List.mem_mergeSort, List.mem_filterMap] at hrow
    obtain ⟨p, _, hp⟩ := hrow
    exact buildRow_satisfies env use q _ se tfe tagsParam ownerParam sourceParam
      ri hyi p row hp
  · intro hhy
    rw [hres, sortRowsDesc, List.length_mergeSort]
    exact le_trans (List.length_filterMap_le _ _) (hlen (heng ▸ hhy))
  · rw [searchCore_envNoModel_filtered_run]
    simp [Except.map, envNoModel]

/-- Witness for C9 on the concrete owner-filtered run. -/
theorem C9_metadata_filters_sound_witness :
    searchCore envNoModel (str "demo") 1 (str "tfidf") none none
        (some (str "bob")) none none (fun _ => none)
      = .ok { engineUsed := Use.tfidf
              hybridWeight := none
              fieldWeights := normalizeFieldWeightsSvc envNoModel.metaFieldWeights
                (fun _ => none)
              results := [] }
    ∧ ∀ row ∈ ({ engineUsed := Use.tfidf
                 hybridWeight := none
                 fieldWeights := normalizeFieldWeightsSvc envNoModel.metaFieldWeights
                   (fun _ => none)
                 results := [] } : SearchOutput).results,
        SatisfiesFilters none (some (str "bob")) none none row :=
  ⟨searchCore_envNoModel_filtered_run,
   (C9_metadata_filters_sound envNoModel (str "demo") 1 (str "tfidf") none none
      (some (str "bob")) none none (fun _ => none) _
      searchCore_envNoModel_filtered_run).1⟩

theorem buildRow_some_spec (env : SearchEnv) (use : Use) (q : Str)
    (nfw : List (Str × ℚ)) (se te : Option Vec)
    (tagsParam ownerParam sourceParam : Option Str) (ri : Option Bool)
    (hyi : Option (List (ℤ × ℚ × ℚ))) (p : ℚ × ℤ) (row : ResultRow)
    (h : buildRow env use q nfw se te tagsParam ownerParam sourceParam ri hyi p
          = some row) :
    ∃ m, env.metas[p.2.toNat]? = some m
      ∧ row = mkRow env use q nfw se te hyi p.1 p.2 m := by
  rw [buildRow] at h
  by_cases h1 : p.2 < 0 ∨ env.metas.length ≤ p.2.toNat
  · rw [if_pos h1] at h; cases h
  · rw [if_neg h1] at h
    cases hm : env.metas[p.2.toNat]? with
    | none => rw [hm] at h; cases h
    | some m =>
      rw [hm] at h
      dsimp only at h
      by_cases h2 : (filtersActive tagsParam ownerParam sourceParam ri = true)
          ∧ applyMetadataFilters [m] (tagsArg tagsParam) ownerParam sourceParam ri
              = []
      · rw [if_pos h2] at h; cases h
      · rw [if_neg h2] at h
        exact ⟨m, hm ▸ rfl, (Option.some.inj h).symm⟩

/-- C3 (amended): every non-hybrid query — dense/sbert and sparse/tfidf
alike — runs one single-engine similarity search with the 3× over-fetch
`min(len(metas), max(k, 3k))`, applies the metadata filters per candidate,
and assembles each surviving result from its raw retrieval score plus the
exact-match and field-evidence bonuses — no min-max normalization, no
blending.  The result list is exactly the descending re-sort of ALL
surviving over-fetched candidates: every surviving candidate is returned
(membership and exact-count conjuncts) and nothing is truncated to `k`. -/
theorem C3_nonhybrid_overfetch_no_truncation (env : SearchEnv) (q : Str)
    (k : ℕ) (tagsParam ownerParam sourceParam : Option Str) (ri : Option Bool)
    (overrideW : Str → Option ℚ) (vt : Str → Vec) (use : Use)
    (hu : use = Use.sbert ∨ use = Use.tfidf)
    (hm : ¬ env.metas = [])
    (hsb : use = Use.sbert → env.modelLoaded = true
        ∧ env.sbertIndexLoaded = true)
    (htf : use = Use.tfidf → env.tfidfIndexLoaded = true
        ∧ env.vtrans = some vt) :
    ∃ out se te, searchCore env q k
        (if use = Use.sbert then str "sbert" else str "tfidf") none tagsParam
        ownerParam sourceParam ri overrideW = .ok out
      ∧ out.engineUsed = use
      ∧ out.hybridWeight = none
      ∧ out.results = sortRowsDesc
          ((nonHybridCandidates env use k).filterMap
            (buildRow env use q
              (normalizeFieldWeightsSvc env.metaFieldWeights overrideW)
              se te tagsParam ownerParam sourceParam ri none))
      ∧ out.results.length
          = ((nonHybridCandidates env use k).filterMap
              (buildRow env use q
                (normalizeFieldWeightsSvc env.metaFieldWeights overrideW)
                se te tagsParam ownerParam sourceParam ri none)).length
      ∧ (∀ row ∈ (nonHybridCandidates env use k).filterMap
            (buildRow env use q
              (normalizeFieldWeightsSvc env.metaFieldWeights overrideW)
              se te tagsParam ownerParam sourceParam ri none),
          row ∈ out.results)
      ∧ ∀ row ∈ out.results,
          ∃ p ∈ nonHybridCandidates env use k,
            ∃ m, env.metas[p.2.toNat]? = some m
              ∧ row.id = m.id
              ∧ row.score = p.1 + exactBonus q m
                  + fieldBonus
                      (normalizeFieldWeightsSvc env.metaFieldWeights overrideW)
                      row.matchedFields := by
  rcases hu with hu | hu
  · subst hu
    obtain ⟨hml, hsi⟩ := hsb rfl
    rw [show (if Use.sbert = Use.sbert then str "sbert" else str "tfidf")
        = str "sbert" from by rw [if_pos rfl]]
    rw [searchCore, if_neg (by rw [hsi]; simp [hm]),
      show pyLower (if str "sbert" = ([] : Str) then str "auto" else str "sbert")
        = str "sbert" from by decide,
      show allowedEngine (str "sbert") = true from by decide,
      if_neg (by simp),
      if_neg (by norm_num [Option.getD, DEFAULT_HYBRID_NLP_WEIGHT]),
      resolveUse, if_neg (by decide), if_pos rfl,
      if_neg (by rw [hml, hsi]; simp)]
    dsimp only
    rw [if_neg (by decide)]
    dsimp only
    rw [if_neg (by decide),
      show (if (Use.sbert = Use.sbert ∨ Use.sbert = Use.hybrid)
          ∧ env.modelLoaded = true then some env.sbertQueryEmb else none)
        = some env.sbertQueryEmb from by rw [if_pos ⟨Or.inl rfl, hml⟩],
      show nonHybridCandidates env Use.sbert k
          = env.sbertSearch (min env.metas.length (max k (k * 3)))
        from by rw [nonHybridCandidates, if_pos rfl]]
    rw [show (if Use.sbert = Use.sbert then
          env.sbertSearch (min env.metas.length (max k (k * 3)))
        else env.tfidfSearch (min env.metas.length (max k (k * 3))))
        = env.sbertSearch (min env.metas.length (max k (k * 3)))
      from by rw [if_pos rfl]]
    refine ⟨_, _, _, rfl, rfl, rfl, rfl, ?_, ?_, ?_⟩
    · rw [sortRowsDesc, List.length_mergeSort]
    · intro row hrow
      rw [sortRowsDesc, List.mem_mergeSort]
      exact hrow
    · intro row hrow
      rw [sortRowsDesc, List.mem_mergeSort, List.mem_filterMap] at hrow
      obtain ⟨p, hp, hrow⟩ := hrow
      obtain ⟨m, hmm, rfl⟩ := buildRow_some_spec env Use.sbert q _
        (some env.sbertQueryEmb) none tagsParam ownerParam sourceParam ri none
        p row hrow
      exact ⟨p, hp, m, hmm, rfl, rfl⟩
  · subst hu
    obtain ⟨hti, hvt⟩ := htf rfl
    rw [show (if Use.tfidf = Use.sbert then str "sbert" else str "tfidf")
        = str "tfidf" from by rw [if_neg (by decide)]]
    rw [searchCore, if_neg (by rw [hti]; simp [hm]),
      show pyLower (if str "tfidf" = ([] : Str) then str "auto" else str "tfidf")
        = str "tfidf" from by decide,
      show allowedEngine (str "tfidf") = true from by decide,
      if_neg (by simp),
      if_neg (by norm_num [Option.getD, DEFAULT_HYBRID_NLP_WEIGHT]),
      resolveUse, if_neg (by decide), if_neg (by decide), if_pos rfl,
      if_neg (by rw [hti]; simp)]
    dsimp only
    rw [if_pos (Or.inl rfl), hvt]
    dsimp only
    rw [if_neg (by decide),
      show (if (Use.tfidf = Use.sbert ∨ Use.tfidf = Use.hybrid)
          ∧ env.modelLoaded = true then some env.sbertQueryEmb else none) = none
        from by rw [if_neg (fun hx => absurd hx.1 (by decide))],
      show nonHybridCandidates env Use.tfidf k
          = env.tfidfSearch (min env.metas.length (max k (k * 3)))
        from by rw [nonHybridCandidates, if_neg (by decide)]]
    rw [show (if Use.tfidf = Use.sbert then
          env.sbertSearch (min env.metas.length (max k (k * 3)))
        else env.tfidfSearch (min env.metas.length (max k (k * 3))))
        = env.tfidfSearch (min env.metas.length (max k (k * 3)))
      from by rw [if_neg (by decide)]]
    refine ⟨_, _, _, rfl, rfl, rfl, rfl, ?_, ?_, ?_⟩
    · rw [sortRowsDesc, List.length_mergeSort]
    · intro row hrow
      rw [sortRowsDesc, List.mem_mergeSort]
      exact hrow
    · intro row hrow
      rw [sortRowsDesc, List.mem_mergeSort, List.mem_filterMap] at hrow
      obtain ⟨p, hp, hrow⟩ := hrow
      obtain ⟨m, hmm, rfl⟩ := buildRow_some_spec env Use.tfidf q _ none _
        tagsParam ownerParam sourceParam ri none p row hrow
      exact ⟨p, hp, m, hmm, rfl, rfl⟩

/-- Concrete run: the tfidf query on the four-document corpus succeeds and
returns all three over-fetched candidate rows. -/
theorem searchCore_env3_run :
    searchCore env3 (str "zzz") 1 (str "tfidf") none none none none none
        (fun _ => none)
      = .ok { engineUsed := Use.tfidf
              hybridWeight := none
              fieldWeights := normalizeFieldWeightsSvc env3.metaFieldWeights
                (fun _ => none)
              results := sortRowsDesc env3Rows } := by
  have hb : ∀ (sc : ℚ) (i : ℤ) (m : SMeta), env3.metas[i.toNat]? = some m →
      ¬ (i < 0 ∨ env3.metas.length ≤ i.toNat) →
      buildRow env3 Use.tfidf (str "zzz")
        (normalizeFieldWeightsSvc env3.metaFieldWeights (fun _ => none))
        none (some (l2normalize env3.sqrt [0])) none none none none none (sc, i)
      = some (mkRow env3 Use.tfidf (str "zzz")
          (normalizeFieldWeightsSvc env3.metaFieldWeights (fun _ => none))
          none (some (l2normalize env3.sqrt [0])) none sc i m) := by
    intro sc i m hmi hrange
    rw [buildRow, if_neg hrange, hmi]
    dsimp only
    rw [if_neg (fun hx => absurd hx.1 (by decide))]
  rw [searchCore, if_neg (by decide),
    show pyLower (if str "tfidf" = ([] : Str) then str "auto" else str "tfidf")
      = str "tfidf" from by decide,
    show allowedEngine (str "tfidf") = true from by decide,
    if_neg (by simp),
    if_neg (by norm_num [Option.getD, DEFAULT_HYBRID_NLP_WEIGHT]),
    show resolveUse env3.modelLoaded env3.sbertIndexLoaded env3.tfidfIndexLoaded
        (str "tfidf") = .ok Use.tfidf from rfl]
  dsimp only
  rw [if_pos (Or.inl rfl), show env3.vtrans = some (fun _ => [0]) from rfl]
  dsimp only
  rw [if_neg (by decide), if_neg (show ¬ (Use.tfidf = Use.sbert) from by decide),
    show (if (Use.tfidf = Use.sbert ∨ Use.tfidf = Use.hybrid)
        ∧ env3.modelLoaded = true then some env3.sbertQueryEmb else none) = none
      from by rw [if_neg (fun hx => absurd hx.1 (by decide))],
    show env3.tfidfSearch (min env3.metas.length (max 1 (1 * 3)))
      = [((3 : ℚ), (0 : ℤ)), (2, 1), (1, 2)] from rfl]
  rw [List.filterMap_cons, hb 3 0 (mkPlainMeta "a" "aa") rfl (by decide),
    List.filterMap_cons, hb 2 1 (mkPlainMeta "b" "bb") rfl (by decide),
    List.filterMap_cons, hb 1 2 (mkPlainMeta "c" "cc") rfl (by decide),
    List.filterMap_nil]
  rfl

/-- C3 counterexample: a tfidf query with `k = 1` over four indexed documents
returns all three over-fetched candidates — the result list is not truncated
to at most `k` results, contradicting the claim. -/
theorem C3_counterexample_more_than_k :
    (searchCore env3 (str "zzz") 1 (str "tfidf") none none none none none
        (fun _ => none)).map (fun o => o.results.length) = .ok 3
    ∧ ¬ (3 ≤ 1) := by
  refine ⟨?_, by omega⟩
  rw [searchCore_env3_run]
  simp only [Except.map]
  rw [sortRowsDesc, List.length_mergeSort]
  rfl

/-- Witness for the amended C3 on both single-engine paths: the tfidf run on
the four-document corpus and the sbert run on its model-enabled variant each
succeed and return exactly the surviving over-fetched candidates. -/
theorem C3_nonhybrid_overfetch_no_truncation_witness :
    (¬ env3.metas = [] ∧ env3.tfidfIndexLoaded = true
      ∧ ∃ out se te, searchCore env3 (str "zzz") 1 (str "tfidf") none none none
          none none (fun _ => none) = .ok out
        ∧ out.engineUsed = Use.tfidf
        ∧ out.results.length
            = ((nonHybridCandidates env3 Use.tfidf 1).filterMap
                (buildRow env3 Use.tfidf (str "zzz")
                  (normalizeFieldWeightsSvc env3.metaFieldWeights
                    (fun _ => none))
                  se te none none none none none)).length)
    ∧ (env3s.modelLoaded = true ∧ env3s.sbertIndexLoaded = true
      ∧ ∃ out se te, searchCore env3s (str "zzz") 1 (str "sbert") none none
          none none none (fun _ => none) = .ok out
        ∧ out.engineUsed = Use.sbert
        ∧ out.results.length
            = ((nonHybridCandidates env3s Use.sbert 1).filterMap
                (buildRow env3s Use.sbert (str "zzz")
                  (normalizeFieldWeightsSvc env3s.metaFieldWeights
                    (fun _ => none))
                  se te none none none none none)).length) := by
  constructor
  · refine ⟨by decide, rfl, ?_⟩
    obtain ⟨out, se, te, h1, h2, _, _, h5, _, _⟩ :=
      C3_nonhybrid_overfetch_no_truncation env3 (str "zzz") 1 none none none
        none (fun _ => none) (fun _ => [0]) Use.tfidf (Or.inr rfl) (by decide)
        (fun hx => absurd hx (by decide)) (fun _ => ⟨rfl, rfl⟩)
    exact ⟨out, se, te, h1, h2, h5⟩
  · refine ⟨rfl, rfl, ?_⟩
    obtain ⟨out, se, te, h1, h2, _, _, h5, _, _⟩ :=
      C3_nonhybrid_overfetch_no_truncation env3s (str "zzz") 1 none none none
        none (fun _ => none) (fun _ => [0]) Use.sbert (Or.inl rfl) (by decide)
        (fun _ => ⟨rfl, rfl⟩) (fun hx => absurd hx (by decide))
    exact ⟨out, se, te, h1, h2, h5⟩

/-- C4 (amended): every returned result's final score is the sum of its base
score and the two bonuses, where the base is the retrieval score of the
row's own originating candidate pair — the raw single-engine score of the
over-fetched list in the sbert/tfidf paths, the blended `hybridTop` entry
score in the hybrid path — the bonuses are computed from the row's own
metadata record, and the result list is re-sorted descending by this final
score.  The bonuses however reorder only the candidates that survive
selection: in the hybrid path the candidate set is truncated to `k` before
the bonuses are applied (so the output still has at most `k` rows and a
bonus cannot pull an over-fetched candidate back in), and the non-hybrid
path never truncates to `k` at all. -/
theorem C4_final_score_sum_and_resort (env : SearchEnv) (q : Str) (k : ℕ)
    (engineParam : Str) (w : Option ℚ)
    (tagsParam ownerParam sourceParam : Option Str) (ri : Option Bool)
    (overrideW : Str → Option ℚ) (out : SearchOutput)
    (h : searchCore env q k engineParam w tagsParam ownerParam sourceParam ri
          overrideW = .ok out) :
    List.Pairwise (fun a b : ResultRow => b.score ≤ a.score) out.results
    ∧ (∃ (pairs : List (ℚ × ℤ)) (se te : Option Vec)
          (hyi : Option (List (ℤ × ℚ × ℚ))),
        out.results = sortRowsDesc (pairs.filterMap
          (buildRow env out.engineUsed q
            (normalizeFieldWeightsSvc env.metaFieldWeights overrideW)
            se te tagsParam ownerParam sourceParam ri hyi))
        ∧ (out.engineUsed = Use.sbert →
            pairs = env.sbertSearch (min env.metas.length (max k (k * 3))))
        ∧ (out.engineUsed = Use.tfidf →
            pairs = env.tfidfSearch (min env.metas.length (max k (k * 3))))
        ∧ (out.engineUsed = Use.hybrid →
            ∃ top, hybridTop env q k (w.getD DEFAULT_HYBRID_NLP_WEIGHT)
                tagsParam ownerParam sourceParam ri = .ok top
              ∧ pairs = top.map (fun e => (e.score, e.idx)))
        ∧ ∀ row ∈ out.results, ∃ p ∈ pairs, ∃ m,
            env.metas[p.2.toNat]? = some m
            ∧ row.id = m.id ∧ row.name = m.name
            ∧ row.matchedFields
                = fieldScoresOf env out.engineUsed se te q m p.2.toNat
            ∧ row.score = p.1 + exactBonus q m
                + fieldBonus
                    (normalizeFieldWeightsSvc env.metaFieldWeights overrideW)
                    row.matchedFields
            ∧ row.exactMatch = detectExactMatch q m)
    ∧ (out.engineUsed = Use.hybrid → out.results.length ≤ k) := by
  obtain ⟨use, pairs, hyi, se, tfe, hres, hlen, heng, hsb, htfp, hhyb⟩ :=
    searchCore_ok_results env q k engineParam w tagsParam ownerParam sourceParam
      ri overrideW out h
  refine ⟨?_, ?_, ?_⟩
  · rw [hres, sortRowsDesc]
    have hs := @List.sorted_mergeSort ResultRow
      (fun a b : ResultRow => decide (b.score ≤ a.score))
      (fun a b c h1 h2 => by
        rw [decide_eq_true_eq] at h1 h2 ⊢
        exact le_trans h2 h1)
      (fun a b => by
        rcases le_total a.score b.score with hx | hx <;> simp [hx])
      (List.filterMap
        (buildRow env use q (normalizeFieldWeightsSvc env.metaFieldWeights overrideW)
          se tfe tagsParam ownerParam sourceParam ri hyi) pairs)
    exact hs.imp (fun hx => of_decide_eq_true hx)
  · rw [heng]
    refine ⟨pairs, se, tfe, hyi, hres, hsb, htfp, hhyb, ?_⟩
    intro row hrow
    rw [hres, sortRowsDesc, List.mem_mergeSort, List.mem_filterMap] at hrow
    obtain ⟨p, hp, hbr⟩ := hrow
    obtain ⟨m, hmm, rfl⟩ := buildRow_some_spec env use q _ se tfe tagsParam
      ownerParam sourceParam ri hyi p row hbr
    exact ⟨p, hp, m, hmm, rfl, rfl, rfl, rfl, rfl⟩
  · intro hhy
    rw [hres, sortRowsDesc, List.length_mergeSort]
    exact le_trans (List.length_filterMap_le _ _) (hlen (heng ▸ hhy))

/-- Witness for the amended C4 on the concrete four-document tfidf run: the
returned list is sorted descending by final score, and each row's score is
its own raw candidate score (from the over-fetched tfidf list) plus the
exact-match and field bonuses of its own metadata record. -/
theorem C4_final_score_sum_and_resort_witness :
    searchCore env3 (str "zzz") 1 (str "tfidf") none none none none none
        (fun _ => none)
      = .ok { engineUsed := Use.tfidf
              hybridWeight := none
              fieldWeights := normalizeFieldWeightsSvc env3.metaFieldWeights
                (fun _ => none)
              results := sortRowsDesc env3Rows }
    ∧ List.Pairwise (fun a b : ResultRow => b.score ≤ a.score)
        (sortRowsDesc env3Rows)
    ∧ ∃ (pairs : List (ℚ × ℤ)),
        pairs = env3.tfidfSearch (min env3.metas.length (max 1 (1 * 3)))
        ∧ ∀ row ∈ sortRowsDesc env3Rows, ∃ p ∈ pairs, ∃ m,
            env3.metas[p.2.toNat]? = some m
            ∧ row.id = m.id
            ∧ row.score = p.1 + exactBonus (str "zzz") m
                + fieldBonus (normalizeFieldWeightsSvc env3.metaFieldWeights
                    (fun _ => none)) row.matchedFields
            ∧ row.exactMatch = detectExactMatch (str "zzz") m := by
  refine ⟨searchCore_env3_run, ?_, ?_⟩
  · exact (C4_final_score_sum_and_resort env3 (str "zzz") 1 (str "tfidf") none
      none none none none (fun _ => none) _ searchCore_env3_run).1
  · obtain ⟨pairs, se, te, hyi, _, _, htfp, _, hrows⟩ :=
      (C4_final_score_sum_and_resort env3 (str "zzz") 1 (str "tfidf") none
        none none none none (fun _ => none) _ searchCore_env3_run).2.1
    refine ⟨pairs, htfp rfl, fun row hrow => ?_⟩
    obtain ⟨p, hp, m, hmm, hid, _, _, hscore, hex⟩ := hrows row hrow
    exact ⟨p, hp, m, hmm, hid, hscore, hex⟩

/-- C4 counterexample: in the hybrid path with `k = 1`, both candidates are
retrieved with equal raw scores (all normalized scores 0), the set is
truncated to `k = 1` BEFORE bonuses, and the returned result is document `a`
with final score 0 — although document `b`, dropped by the truncation, would
have final score `0.18 > 0` after its exact-match and field bonuses.  The
bonuses therefore cannot reorder the over-fetched candidate set before the
truncation to `k`, contradicting the claim. -/
theorem C4_counterexample_bonus_after_truncation :
    (searchCore env4 (str "b") 1 (str "hybrid") none none none none none
        (fun _ => none)).map
      (fun o => o.results.map (fun r => (r.id, r.score))) = .ok [(str "a", 0)]
    ∧ (0 : ℚ) + exactBonus (str "b") (mkPlainMeta "b" "b")
        + fieldBonus (normalizeFieldWeightsSvc env4.metaFieldWeights (fun _ => none))
            (fieldScoresOf env4 Use.hybrid (some env4.sbertQueryEmb)
              (some (l2normalize env4.sqrt
                ((fun s => if s = str "b" then [1, 0] else [0, 1]) (str "b"))))
              (str "b") (mkPlainMeta "b" "b") ((1 : ℤ)).toNat)
        = 18/100
    ∧ ((0 : ℚ) < 18/100)
    ∧ env4.sbertSearch (min env4.metas.length (max 1 (1 * 4)))
        = [(1, 0), (1, 1)] := by
  have halpha : selectHybridAlpha (str "b") = 11/20 := by
    rw [selectHybridAlpha, show queryLength (str "b") = 1 from by decide,
      selectHybridAlphaOfLength]
    norm_num [DEFAULT_HYBRID_ALPHA_SHORT_QUERY]
  have hcomb : hybridCombined (Option.getD none DEFAULT_HYBRID_NLP_WEIGHT)
      (selectHybridAlpha (str "b"))
      [((1 : ℚ), (0 : ℤ)), (1, 1)] [((1 : ℚ), (0 : ℤ)), (1, 1)]
      = [⟨0, 0, 1, 1, 0, 0, 5/8⟩, ⟨0, 1, 1, 1, 0, 0, 5/8⟩] := by
    rw [halpha]
    norm_num [hybridCombined, buildScoreMap, insertSbertResults,
      insertTfidfResults, setEntry, getEntry, normalizeScores, listMax, listMin,
      DEFAULT_HYBRID_NLP_WEIGHT, List.foldl]
  have hsort : List.mergeSort
      [(⟨0, 0, 1, 1, 0, 0, 5/8⟩ : HybridEntry), ⟨0, 1, 1, 1, 0, 0, 5/8⟩]
      (fun a b => b.score ≤ a.score)
      = [⟨0, 0, 1, 1, 0, 0, 5/8⟩, ⟨0, 1, 1, 1, 0, 0, 5/8⟩] := by
    norm_num [List.mergeSort]
  have htop : hybridTop env4 (str "b") 1
      (Option.getD none DEFAULT_HYBRID_NLP_WEIGHT) none none none none
      = .ok [⟨0, 0, 1, 1, 0, 0, 5/8⟩] := by
    rw [hybridTop,
      show env4.sbertSearch (min env4.metas.length (max 1 (1 * 4)))
        = [((1 : ℚ), (0 : ℤ)), (1, 1)] from rfl,
      show env4.tfidfSearch (min env4.metas.length (max 1 (1 * 4)))
        = [((1 : ℚ), (0 : ℤ)), (1, 1)] from rfl,
      hcomb, hsort]
    rw [show ([(⟨0, 0, 1, 1, 0, 0, 5/8⟩ : HybridEntry), ⟨0, 1, 1, 1, 0, 0, 5/8⟩].mapM
        (fun e => if e.idx < 0 then none else env4.metas[e.idx.toNat]?))
      = some [mkPlainMeta "a" "aaa", mkPlainMeta "b" "b"] from rfl]
    dsimp only
    rw [show applyMetadataFilters [mkPlainMeta "a" "aaa", mkPlainMeta "b" "b"]
        (tagsArg none) none none none
        = [mkPlainMeta "a" "aaa", mkPlainMeta "b" "b"] from by
      rw [applyMetadataFilters, if_pos (by simp [tagsArg])]]
    norm_num [List.filter, mkPlainMeta, str, env4, List.getElem?_cons_zero,
      List.getElem?_cons_succ]
  have hfsA : ∀ v : Option Vec,
      fieldScoresOf env4 Use.hybrid (some env4.sbertQueryEmb) v
        (str "b") (mkPlainMeta "a" "aaa") (Int.toNat 0)
      = [(str "name", 0), (str "description", 0), (str "excerpt", 0)] := by
    intro v
    show fieldScoresVect env4.sqrt
        (fun s => if s = str "b" then [1, 0] else [0, 1])
        (str "b") (mkPlainMeta "a" "aaa") = _
    norm_num +decide [fieldScoresVect, FIELD_NAMES, metaField, mkPlainMeta, l2normalize,
      sumSq, zeroOneSqrt, dot, env4, str, List.map, List.zipWith]
  have hfsB : fieldScoresOf env4 Use.hybrid (some env4.sbertQueryEmb)
      (some (l2normalize env4.sqrt
        ((fun s => if s = str "b" then [1, 0] else [0, 1]) (str "b"))))
      (str "b") (mkPlainMeta "b" "b") ((1 : ℤ)).toNat
      = [(str "name", 1), (str "description", 0), (str "excerpt", 0)] := by
    show fieldScoresVect env4.sqrt
        (fun s => if s = str "b" then [1, 0] else [0, 1])
        (str "b") (mkPlainMeta "b" "b") = _
    norm_num +decide [fieldScoresVect, FIELD_NAMES, metaField, mkPlainMeta, l2normalize,
      sumSq, zeroOneSqrt, dot, env4, str, List.map, List.zipWith]
  have hnfw : normalizeFieldWeightsSvc env4.metaFieldWeights (fun _ => none)
      = [(str "name", 3/5), (str "description", 3/10), (str "excerpt", 1/10)] := by
    show normalizeFieldWeightsSvc (fun _ => none) (fun _ => none) = _
    rw [normalizeFieldWeightsSvc]
    norm_num +decide [FIELD_NAMES, fieldWeightValue, defaultFieldWeight, str, List.map]
  refine ⟨?_, ?_, by norm_num, rfl⟩
  · have hbrow : ∀ v : Option Vec, buildRow env4 Use.hybrid (str "b")
        (normalizeFieldWeightsSvc env4.metaFieldWeights (fun _ => none))
        (some env4.sbertQueryEmb) v
        none none none none (some [((0 : ℤ), (1 : ℚ), (1 : ℚ))])
        ((0 : ℚ), (0 : ℤ))
        = some (mkRow env4 Use.hybrid (str "b")
            (normalizeFieldWeightsSvc env4.metaFieldWeights (fun _ => none))
            (some env4.sbertQueryEmb) v
            (some [((0 : ℤ), (1 : ℚ), (1 : ℚ))]) 0 0 (mkPlainMeta "a" "aaa")) := by
      intro v
      rw [buildRow, if_neg (by decide),
        show env4.metas[((0 : ℤ)).toNat]? = some (mkPlainMeta "a" "aaa") from rfl]
      dsimp only
      rw [if_neg (fun hx => absurd hx.1 (by decide))]
    rw [searchCore, if_neg (by decide),
      show pyLower (if str "hybrid" = ([] : Str) then str "auto" else str "hybrid")
        = str "hybrid" from by decide,
      show allowedEngine (str "hybrid") = true from by decide,
      if_neg (by simp),
      if_neg (by norm_num [Option.getD, DEFAULT_HYBRID_NLP_WEIGHT]),
      show resolveUse env4.modelLoaded env4.sbertIndexLoaded env4.tfidfIndexLoaded
          (str "hybrid") = .ok Use.hybrid from rfl]
    dsimp only
    rw [if_pos (Or.inr rfl),
      show env4.vtrans = some (fun s => if s = str "b" then [1, 0] else [0, 1])
        from rfl]
    dsimp only
    rw [if_pos rfl, htop]
    dsimp only
    simp only [Except.map]
    rw [List.map_cons, List.map_nil, List.map_cons, List.map_nil,
      show (if env4.modelLoaded = true then some env4.sbertQueryEmb else none)
        = some env4.sbertQueryEmb from rfl]
    dsimp only
    rw [List.filterMap_cons, hbrow, List.filterMap_nil]
    dsimp only [mkRow]
    simp only [if_true]
    rw [sortRowsDesc, hnfw, hfsA]
    norm_num +decide [List.mergeSort, exactBonus, detectExactMatch, fieldBonus,
      List.lookup, str, mkPlainMeta, EXACT_MATCH_BONUS, maxByScore]
  · rw [hfsB, hnfw]
    norm_num +decide [exactBonus, detectExactMatch, fieldBonus, List.lookup,
      pyLower, pyStrip, pyDashToSpace, str, isSpace, mkPlainMeta,
      EXACT_MATCH_BONUS]

theorem joinStrs_length (ys : List Str) :
    (joinStrs ys).length = (ys.map (fun y => y.length + 1)).sum - 1 := by
  induction ys with
  | nil => rfl
  | cons y ys ih =>
    cases ys with
    | nil => simp [joinStrs]
    | cons z zs =>
      have hsp : (str " ").length = 1 := rfl
      have hpos : 1 ≤ ((z :: zs).map (fun y => y.length + 1)).sum := by
        simp only [List.map_cons, List.sum_cons]; omega
      rw [joinStrs, List.length_append, List.length_append, ih, hsp]
      simp only [List.map_cons, List.sum_cons] at hpos ⊢
      omega

theorem filter_map_gLen (xs : List Str) :
    ((xs.filter (fun x => x ≠ [])).map (fun y => y.length + 1)).sum
      = (xs.map gLen).sum := by
  induction xs with
  | nil => rfl
  | cons x xs ih =>
    by_cases hx : x = []
    · rw [List.filter_cons, if_neg (by simp [hx]), ih, List.map_cons,
        List.sum_cons, show gLen x = 0 from by rw [gLen, if_pos hx]]
      omega
    · rw [List.filter_cons, if_pos (by simp [hx]), List.map_cons, List.sum_cons,
        ih, List.map_cons, List.sum_cons,
        show gLen x = x.length + 1 from by rw [gLen, if_neg hx]]

theorem joinNonEmpty_length (xs : List Str) :
    (joinNonEmpty xs).length = (xs.map gLen).sum - 1 := by
  rw [joinNonEmpty, joinStrs_length, filter_map_gLen]

theorem gLen_joinPair (a b : Str) :
    gLen (joinNonEmpty [a, b]) = gLen a + gLen b := by
  by_cases ha : a = [] <;> by_cases hb : b = [] <;>
    simp [joinNonEmpty, List.filter_cons, ha, hb, joinStrs, gLen, str] <;> omega

theorem gLen_ge_two {s : Str} (h : s ≠ []) : 2 ≤ gLen s := by
  rw [gLen, if_neg h]
  have := List.length_pos.mpr h
  omega

/-- C10: for a document carrying secondary-language text, the two indexing
paths diverge: `build_index` vectorizes the concatenated primary+secondary
texts while `update_index` vectorizes the primary text only (the two
vectorizer inputs differ), and `build_index` stores the `name_zh` and
`description_zh` keys in the metadata record while `update_index` omits
them — so indexing the document incrementally is not equivalent to a full
rebuild. -/
theorem C10_zh_build_update_divergence (d : Doc)
    (h : coalesce d.nameZh ≠ [] ∨ coalesce d.descriptionZh ≠ []) :
    buildDocText d ≠ updateDocText d
    ∧ (str "name_zh") ∈ (buildMetaRec d).map Prod.fst
    ∧ (str "description_zh") ∈ (buildMetaRec d).map Prod.fst
    ∧ (str "name_zh") ∉ (updateMetaRec d).map Prod.fst
    ∧ (str "description_zh") ∉ (updateMetaRec d).map Prod.fst
    ∧ buildMetaRec d ≠ updateMetaRec d := by
  refine ⟨?_, ?_, ?_, ?_, ?_, ?_⟩
  · intro heq
    have hlen := congrArg List.length heq
    rw [buildDocText, updateDocText, joinNonEmpty_length, joinNonEmpty_length,
      List.map_cons, List.map_cons, List.map_cons, List.map_nil, List.sum_cons,
      List.sum_cons, List.sum_cons, List.sum_nil, List.map_cons, List.map_cons,
      List.map_cons, List.map_nil, List.sum_cons, List.sum_cons, List.sum_cons,
      List.sum_nil, buildNameText, buildDescriptionText, gLen_joinPair,
      gLen_joinPair] at hlen
    rcases h with hz | hz <;> have := gLen_ge_two hz <;> omega
  · simp +decide [buildMetaRec]
  · simp +decide [buildMetaRec]
  · simp +decide [updateMetaRec]
  · simp +decide [updateMetaRec]
  · intro heq
    have hlen := congrArg List.length heq
    simp [buildMetaRec, updateMetaRec] at hlen

/-- Witness for C10 on a document whose `name_zh` is `"zh"`. -/
theorem C10_zh_build_update_divergence_witness :
    (coalesce docZh.nameZh ≠ [] ∨ coalesce docZh.descriptionZh ≠ [])
    ∧ buildDocText docZh ≠ updateDocText docZh
    ∧ buildMetaRec docZh ≠ updateMetaRec docZh :=
  ⟨Or.inl (by decide),
   (C10_zh_build_update_divergence docZh (Or.inl (by decide))).1,
   (C10_zh_build_update_divergence docZh (Or.inl (by decide))).2.2.2.2.2⟩

theorem tfidfWeightedMats_length (mats : Str → Mat) (fw : Str → ℚ) (n : ℕ)
    (h : ∀ f, (mats f).length = n) :
    ∀ m, tfidfWeightedMats mats fw = some m → m.length = n := by
  intro m hm
  rw [tfidfWeightedMats, FIELD_NAMES, List.foldl_cons, List.foldl_cons,
    List.foldl_cons, List.foldl_nil] at hm
  dsimp only at hm
  obtain rfl := Option.some.inj hm
  simp [addMat, scaleMat, List.length_zipWith, h]

/-- C5: the incremental update appends exactly the corpus documents whose id
is absent from the stored metadata (identification is purely by id), appends
one new row per new document after the existing tfidf index rows — leaving
the stored rows and their positions unchanged — never writes the vectorizer
artifact (the frozen vectorizer is only loaded and applied), and is a no-op
when no corpus id is new. -/
theorem C5_update_appends_only_new (env : BuildEnv) (corpus : List Doc)
    (st : Store) (ms : List MetaRec) (idx0 t : Mat) (vec : Str → Vec)
    (hm : st.metaFile = some ms) (hi : st.indexFile = some idx0)
    (ht : st.tfidfIndexFile = some t) (hv : st.vectorizerFile = some vec) :
    ((newSkillsOf ms corpus).isEmpty = true → updateIndex env corpus st = st)
    ∧ (updateIndex env corpus st).metaFile
        = some (ms ++ (newSkillsOf ms corpus).map updateMetaRec)
    ∧ (∃ newRows : Mat, (updateIndex env corpus st).tfidfIndexFile
        = some (t ++ newRows)
        ∧ newRows.length = (newSkillsOf ms corpus).length)
    ∧ (∃ newRows : Mat, (updateIndex env corpus st).indexFile
        = some (idx0 ++ newRows))
    ∧ (updateIndex env corpus st).vectorizerFile = some vec := by
  obtain ⟨mf, xf, tf, vf, tff, sff, imf⟩ := st
  dsimp only at hm hi ht hv
  subst hm hi ht hv
  by_cases hne : (newSkillsOf ms corpus).isEmpty = true
  · have hupd : updateIndex env corpus
        ⟨some ms, some idx0, some t, some vec, tff, sff, imf⟩
        = ⟨some ms, some idx0, some t, some vec, tff, sff, imf⟩ := by
      unfold updateIndex
      dsimp only
      rw [if_pos hne]
    rw [List.isEmpty_iff] at hne
    rw [hupd]
    exact ⟨fun _ => rfl, by rw [hne]; simp, ⟨[], by simp, by rw [hne]; rfl⟩,
      ⟨[], by simp⟩, rfl⟩
  · unfold updateIndex
    dsimp only
    rw [if_neg hne]
    dsimp only
    refine ⟨fun hx => absurd hx hne, ?_, ?_, ?_, ?_⟩
    · rfl
    · refine ⟨normalizeRows env.sqrt
        ((tfidfWeightedMats
            (fun f => ((newSkillsOf ms corpus).map
              (fun d => updateFieldText d f)).map vec)
            (normalizeFieldWeightsBuild defaultFieldWeight)).getD
          (((newSkillsOf ms corpus).map updateDocText).map vec)), ?_, ?_⟩
      · cases tff <;> cases henc : env.sbertEncode <;> dsimp only <;>
          (try (repeat' split)) <;> rfl
      · rw [normalizeRows, List.length_map]
        cases hw : tfidfWeightedMats
            (fun f => ((newSkillsOf ms corpus).map
              (fun d => updateFieldText d f)).map vec)
            (normalizeFieldWeightsBuild defaultFieldWeight) with
        | none => rw [Option.getD_none, List.length_map, List.length_map]
        | some m =>
          rw [Option.getD_some]
          exact tfidfWeightedMats_length _ _ _
            (fun f => by rw [List.length_map, List.length_map]) m hw
    · cases tff <;> cases henc : env.sbertEncode <;> dsimp only <;>
        (try (repeat' split)) <;>
        first
          | exact ⟨_, rfl⟩
          | exact ⟨[], by rw [List.append_nil]⟩
    · cases tff <;> cases henc : env.sbertEncode <;> dsimp only <;>
        (try (repeat' split)) <;> rfl

/-- Witness for C5 on the corpus `{A, B, D}` over a store holding `{A, B}`:
only `D` is appended, and the same update on corpus `{A, B}` is a no-op. -/
theorem C5_update_appends_only_new_witness :
    store5.metaFile = some [updateMetaRec (mkDoc "A"), updateMetaRec (mkDoc "B")]
    ∧ newSkillsOf [updateMetaRec (mkDoc "A"), updateMetaRec (mkDoc "B")] corpus5
        = [mkDoc "D"]
    ∧ (updateIndex env5 corpus5 store5).metaFile
        = some ([updateMetaRec (mkDoc "A"), updateMetaRec (mkDoc "B")]
            ++ (newSkillsOf [updateMetaRec (mkDoc "A"),
                  updateMetaRec (mkDoc "B")] corpus5).map updateMetaRec)
    ∧ (updateIndex env5 corpus5 store5).vectorizerFile = store5.vectorizerFile
    ∧ updateIndex env5 [mkDoc "A", mkDoc "B"] store5 = store5 := by
  refine ⟨rfl, by decide, ?_, ?_, ?_⟩
  · exact (C5_update_appends_only_new env5 corpus5 store5 _ _ _ _ rfl rfl rfl
      rfl).2.1
  · exact (C5_update_appends_only_new env5 corpus5 store5 _ _ _ _ rfl rfl rfl
      rfl).2.2.2.2
  · exact (C5_update_appends_only_new env5 [mkDoc "A", mkDoc "B"] store5 _ _ _ _
      rfl rfl rfl rfl).1 (by decide)

/-- C6 (amended): the fallback half of the claim holds — `update_index`
falls back to a full build when the stored metadata sidecar is missing, and
likewise when new documents exist but the primary index file or the pickled
vectorizer is missing.  The no-partial-publish half is false: a failure of
the guarded SBERT section mid-update still publishes the updated tfidf
index, per-field matrices and metadata while leaving the SBERT index stale
(see the counterexample). -/
theorem C6_missing_artifacts_fall_back_to_build (env : BuildEnv)
    (corpus : List Doc) (st : Store) :
    (st.metaFile = none → updateIndex env corpus st = buildIndex env corpus st)
    ∧ (∀ ms, st.metaFile = some ms → (newSkillsOf ms corpus).isEmpty = false →
        st.indexFile = none ∨ st.vectorizerFile = none →
        updateIndex env corpus st = buildIndex env corpus st) := by
  constructor
  · intro hm
    unfold updateIndex
    rw [hm]
  · intro ms hm hne hmiss
    unfold updateIndex
    rw [hm]
    dsimp only
    rw [if_neg (by rw [hne]; exact Bool.false_ne_true)]
    rcases hmiss with h | h
    · rw [h]
    · rw [h]
      cases hx : st.indexFile <;> rfl

/-- Witness for the amended C6: a store with no metadata sidecar falls back
to a full build, and a store with metadata but no vectorizer artifact does
too. -/
theorem C6_missing_artifacts_fall_back_to_build_witness :
    updateIndex env5 corpus5
        { store5 with metaFile := none }
      = buildIndex env5 corpus5 { store5 with metaFile := none }
    ∧ updateIndex env5 corpus5 { store5 with vectorizerFile := none }
      = buildIndex env5 corpus5 { store5 with vectorizerFile := none } := by
  constructor
  · exact (C6_missing_artifacts_fall_back_to_build env5 corpus5
      { store5 with metaFile := none }).1 rfl
  · exact (C6_missing_artifacts_fall_back_to_build env5 corpus5
      { store5 with vectorizerFile := none }).2
      [updateMetaRec (mkDoc "A"), updateMetaRec (mkDoc "B")] rfl (by decide)
      (Or.inr rfl)

/-- C6 counterexample: an incremental update whose guarded SBERT section
aborts (the provider fails mid-update) still publishes the appended
metadata sidecar and the grown tfidf index while the SBERT index and SBERT
per-field matrices keep their stale contents — the operation leaves some
persisted artifacts updated and others not, contradicting the
no-partial-publish claim. -/
theorem C6_counterexample_partial_publish :
    (updateIndex env5 corpus6 store6).metaFile.map List.length = some 2
    ∧ store6.metaFile.map List.length = some 1
    ∧ (updateIndex env5 corpus6 store6).tfidfIndexFile.map List.length = some 2
    ∧ store6.tfidfIndexFile.map List.length = some 1
    ∧ (updateIndex env5 corpus6 store6).indexFile = store6.indexFile
    ∧ (updateIndex env5 corpus6 store6).sbertFieldsFile = store6.sbertFieldsFile := by
  refine ⟨?_, rfl, ?_, rfl, ?_, ?_⟩ <;> rfl

end SkillsHub
